import Mathlib

/-!
Verification of the 2D baggage-creator placement engine
(`lib/bag_generator/baggage_creator_2d.py`).

The per-slice occupancy canvas and all object rasters are 2D integer grids;
we embed them as `List (List Int)` with out-of-range reads defaulting to `0`
(numpy reads inside the functions below are always in range for the slices
the source takes, and slice truncation is modelled explicitly).
Poses are canvas coordinates; the source casts them to int before committing
(`bag_obj.pose.astype(int)`), and every commit site reaches
`place_object_in_bag` with non-negative coordinates, so the commit is
embedded over `Nat` coordinates with numpy's end-of-axis truncation made
explicit via `min`.

Library semantics used by the source and mirrored here:
* `skimage.draw.ellipse(r, c, a, b, rotation=0, shape=s)` marks the pixels
  with `((row-r)/a)^2 + ((col-c)/b)^2 < 1` clipped to `s` (strict
  inequality); for integer centres and radii this equals the integer test
  `b^2 (row-r)^2 + a^2 (col-c)^2 < a^2 b^2`.
* `skimage.morphology.disk(t)` is the set of offsets with
  `dr^2 + dc^2 ≤ t^2`.
* `skimage.morphology.binary_erosion` calls `scipy.ndimage.binary_erosion`
  with `border_value=True`: a pixel survives iff every in-image pixel under
  the footprint is foreground (out-of-image counts as foreground).
* `skimage.measure.label` with default connectivity labels 8-connected
  components with consecutive positive integers in raster-scan
  first-encounter order.
* `np.argmax` returns the first index attaining the maximum.
* `np.where` enumerates indices in ascending order, so `argmin` over
  distances of `np.where` output resolves ties toward the smaller index.
-/

namespace BaggageCreator2D

/-- A 2D integer raster (occupancy canvas slice or object mask). -/
abbrev Grid := List (List Int)

/-- Read a cell; out-of-range reads give `0` (background). -/
def getCell (g : Grid) (r c : Nat) : Int :=
  (g.getD r []).getD c 0

/-- Number of rows of a grid (numpy `shape[0]`). -/
def gridRows (g : Grid) : Nat := g.length

/-- Number of columns of a grid (numpy `shape[1]` for a rectangular array). -/
def gridCols (g : Grid) : Nat := (g.headD []).length

/-- A grid is rectangular when every row has the common width (numpy arrays
always are; our list embedding has to say it). -/
def Rect (g : Grid) : Prop := ∀ row ∈ g, row.length = gridCols g

/-- Length of the numpy slice `a[p : p+n]` along an axis of size `sz`,
for a non-negative start `p` (`max(0, min(p+n, sz) - min(p, sz))`;
`Nat` subtraction already clamps at zero). -/
def npSliceLen (sz p n : Nat) : Nat := min (p + n) sz - p

/-- Embedding of `BaggageImage2D.place_object_in_bag`
(baggage_creator_2d.py lines 1835-1858), as the value of the updated
canvas slice at cell `(r, c)`.

Source:
`s_shape = self.ws_bag[pose0 : pose0+mask.shape[0], pose1 : pose1+mask.shape[1], slice].shape`,
`b_data = bag_obj.data[:s_shape[0], :s_shape[1]]`, `nz = np.where(b_data)`,
`ws_bag[...][nz] = b_data[nz]`:
the mask is truncated to the in-canvas window starting at the pose, and
every nonzero (foreground) pixel of the truncated mask is written into the
window; all other cells keep their previous value. -/
def place_object_in_bag (canvas mask : Grid) (p0 p1 : Nat) (r c : Nat) : Int :=
  let s0 := npSliceLen (gridRows canvas) p0 (gridRows mask)
  let s1 := npSliceLen (gridCols canvas) p1 (gridCols mask)
  if p0 ≤ r ∧ r < p0 + s0 ∧ p1 ≤ c ∧ c < p1 + s1 ∧ getCell mask (r - p0) (c - p1) ≠ 0
  then getCell mask (r - p0) (c - p1)
  else getCell canvas r c

/-- Does row `r` of the grid contain a foreground (nonzero) pixel? -/
def rowHasFg (g : Grid) (r : Nat) : Bool :=
  (List.range (gridCols g)).any fun c => getCell g r c != 0

/-- Does column `c` of the grid contain a foreground (nonzero) pixel? -/
def colHasFg (g : Grid) (c : Nat) : Bool :=
  (List.range (gridRows g)).any fun r => getCell g r c != 0

/-- Smallest index `< n` satisfying `p` (the `.min()` of a `np.where`
axis); defaults to `0` when there is none. -/
def firstSuchThat (p : Nat → Bool) (n : Nat) : Nat :=
  ((List.range n).filter p).headD 0

/-- Largest index `< n` satisfying `p` (the `.max()` of a `np.where`
axis); defaults to `0` when there is none. -/
def lastSuchThat (p : Nat → Bool) (n : Nat) : Nat :=
  ((List.range n).filter p).getLastD 0

/-- The bounding-box crop step shared by the rasterizers
(`create_ellipse` lines 255-262, `create_rectanguloid` lines 291-298,
`create_trapezoid`, `create_custom_object`).

Source: `dim = coord.max() - coord.min() + 1` per axis, then
`bin_image = mask[rmin : rmin + dim0 + 1, cmin : cmin + dim1 + 1]`
(note the extra `+ 1` beyond the tight height/width `dim`). -/
def crop_to_bbox (g : Grid) : Grid :=
  let rmin := firstSuchThat (rowHasFg g) (gridRows g)
  let rmax := lastSuchThat (rowHasFg g) (gridRows g)
  let cmin := firstSuchThat (colHasFg g) (gridCols g)
  let cmax := lastSuchThat (colHasFg g) (gridCols g)
  ((g.drop rmin).take (rmax - rmin + 1 + 1)).map
    fun row => (row.drop cmin).take (cmax - cmin + 1 + 1)

/-- Membership test of `skimage.draw.ellipse` for rotation `0`:
centre `(M+1, M+1)` with `M = max a b`, semi-axes `(a, b)`, strict
interior (`distances < 1`), in exact integer arithmetic. -/
def inEllipse (a b M r c : Nat) : Bool :=
  let dr : Int := (r : Int) - (M + 1)
  let dc : Int := (c : Int) - (M + 1)
  (b * b : Int) * (dr * dr) + (a * a : Int) * (dc * dc) < (a * a : Int) * (b * b)

/-- The oversized square buffer of `Object2D.create_ellipse`
(lines 239-253) for rotation `0`: shape `(2M+1, 2M+1)` with
`M = max a b`, ellipse drawn at centre `(M+1, M+1)` and clipped to the
buffer by construction. -/
def ellipse_buffer (a b : Nat) : Grid :=
  let M := max a b
  (List.range (2 * M + 1)).map fun r =>
    (List.range (2 * M + 1)).map fun c =>
      if inEllipse a b M r c then 1 else 0

/-- Embedding of `Object2D.create_ellipse` (lines 230-265) for integer
semi-axes and rotation `0`: draw the ellipse in the oversized buffer and
crop with the source's bounding-box slice. -/
def create_ellipse (a b : Nat) : Grid :=
  crop_to_bbox (ellipse_buffer a b)

/-- Offsets of `skimage.morphology.disk t` (Euclidean ball of radius `t`). -/
def disk_offsets (t : Nat) : List (Int × Int) :=
  ((List.range (2 * t + 1)).flatMap fun (i : Nat) =>
    (List.range (2 * t + 1)).map fun (j : Nat) => ((i : Int) - t, (j : Int) - t)).filter
    fun d => d.1 * d.1 + d.2 * d.2 ≤ (t : Int) * t

/-- One output pixel of `skimage.morphology.binary_erosion` of the binary
footprint of `data` (nonzero = foreground) with `disk t`, with
`border_value=True`: the pixel survives iff every in-image cell under the
disk is foreground. -/
def erodedCell (data : Grid) (t : Nat) (r c : Nat) : Bool :=
  (disk_offsets t).all fun d =>
    let rr : Int := (r : Int) + d.1
    let cc : Int := (c : Int) + d.2
    if 0 ≤ rr ∧ rr < (gridRows data : Int) ∧ 0 ≤ cc ∧ cc < (gridCols data : Int)
    then getCell data rr.toNat cc.toNat != 0
    else true

/-- Row-wise foreground test of the eroded cavity. -/
def cavityRowHasFg (data : Grid) (t : Nat) (r : Nat) : Bool :=
  (List.range (gridCols data)).any fun c => erodedCell data t r c

/-- Is the eroded cavity empty?  (`np.where(eroded_img)` yields no rows, so
`e_row.max()` raises and the enclosing `try`/`except` of
`apply_liquid_container_rule` swallows the error.) -/
def cavityEmpty (data : Grid) (t : Nat) : Bool :=
  !(List.range (gridRows data)).any (cavityRowHasFg data t)

/-- `e_row.min()` of the cavity. -/
def cavityRmin (data : Grid) (t : Nat) : Nat :=
  firstSuchThat (cavityRowHasFg data t) (gridRows data)

/-- `e_row.max()` of the cavity. -/
def cavityRmax (data : Grid) (t : Nat) : Nat :=
  lastSuchThat (cavityRowHasFg data t) (gridRows data)

/-- Embedding of `Object2D.apply_liquid_container_rule` (lines 206-227),
as the value of the object's raster at `(r, c)` after the rule.

Source: `bin_data = data // label`; `eroded_img = binary_erosion(bin_data,
disk(cntr_thickness))`; `e_fill = int((1 - lqd_level) * (e_row.max() -
e_row.min()))`; `e_fill_img = eroded_img` with rows `[:e_fill]` zeroed;
then `data[np.where(eroded_img)] = -1` and
`data[np.where(e_fill_img)] = lqd_label`.  The whole body is wrapped in
`try`/`except: pass`: when the eroded cavity is empty, `e_row.max()`
raises before any write, leaving `data` unmodified.  `int()` truncates;
`1 - lqd_level ≥ 0`, so it is `⌊(1 - lqd_level)·(rmax - rmin)⌋`. -/
def apply_liquid_container_rule (data : Grid) (t : Nat) (lqd_level : ℚ)
    (lqd_label : Int) (r c : Nat) : Int :=
  if cavityEmpty data t then getCell data r c
  else
    let e_fill : Nat :=
      (⌊(1 - lqd_level) * ((cavityRmax data t : ℚ) - cavityRmin data t)⌋).toNat
    if erodedCell data t r c then
      (if e_fill ≤ r then lqd_label else -1)
    else getCell data r c

/-- Maximum of a list of integers (`0` for the empty list; the source never
takes the maximum of an empty `pix_cnt`). -/
def list_max : List Int → Int
  | [] => 0
  | [x] => x
  | x :: y :: xs => max x (list_max (y :: xs))

/-- `np.argmax`: index of the first occurrence of the maximum. -/
def np_argmax : List Int → Nat
  | [] => 0
  | [_] => 0
  | x :: y :: xs => if list_max (y :: xs) ≤ x then 0 else np_argmax (y :: xs) + 1

/-- Sum of the entries of `labels` that are equal to `x`
(`obj_int_bin[obj_int_bin == x].sum()`). -/
def label_sum (labels : Grid) (x : Int) : Int :=
  (labels.map fun row => (row.filter fun v => v == x).sum).sum

/-- Number of pixels of `labels` holding value `x`. -/
def label_count (labels : Grid) (x : Int) : Nat :=
  (labels.map fun row => (row.filter fun v => v == x).length).sum

/-- The source's per-component pixel counts (line 1488):
`pix_cnt = [obj_int_bin[obj_int_bin==x].sum()//x for x in range(1, max+1)]`. -/
def pix_cnt (labels : Grid) (K : Nat) : List Int :=
  (List.range K).map fun (i : Nat) => label_sum labels ((i : Int) + 1) / ((i : Int) + 1)

/-- The source's selected component label (line 1490):
`max_ind = np.argmax(pix_cnt) + 1`. -/
def max_ind (labels : Grid) (K : Nat) : Nat :=
  np_argmax (pix_cnt labels K) + 1

/-- Clearing all non-selected components (line 1493):
`obj_int_bin[obj_int_bin != max_ind] = 0`. -/
def clear_non_max (labels : Grid) (keep : Int) : Grid :=
  labels.map fun row => row.map fun v => if v == keep then v else 0

/-- Is `p` a foreground pixel of the grid? -/
def fgAt (g : Grid) (p : Nat × Nat) : Bool :=
  getCell g p.1 p.2 != 0

/-- The 8-connected in-bounds neighbours of a pixel (`skimage.measure.label`
uses full connectivity by default). -/
def nbrs8 (H W : Nat) (p : Nat × Nat) : List (Nat × Nat) :=
  ([(-1, -1), (-1, 0), (-1, 1), (0, -1), (0, 1), (1, -1), (1, 0), (1, 1)] :
      List (Int × Int)).filterMap fun d =>
    let r : Int := (p.1 : Int) + d.1
    let c : Int := (p.2 : Int) + d.2
    if 0 ≤ r ∧ r < (H : Int) ∧ 0 ≤ c ∧ c < (W : Int)
    then some (r.toNat, c.toNat) else none

/-- One step of flood filling: add the foreground neighbours of the
accumulated set. -/
def floodStep (g : Grid) (acc : List (Nat × Nat)) : List (Nat × Nat) :=
  acc ++ ((acc.flatMap (nbrs8 (gridRows g) (gridCols g))).filter
    fun q => fgAt g q && !(acc.contains q)).dedup

/-- Iterate a function `n` times. -/
def iterN (f : α → α) : Nat → α → α
  | 0, a => a
  | n + 1, a => iterN f n (f a)

/-- The 8-connected component of a foreground pixel, by flood fill;
`rows*cols` rounds reach the closure on any grid. -/
def component_of (g : Grid) (p : Nat × Nat) : List (Nat × Nat) :=
  iterN (floodStep g) (gridRows g * gridCols g) [p]

/-- All pixel coordinates in raster-scan order. -/
def rasterCells (g : Grid) : List (Nat × Nat) :=
  (List.range (gridRows g)).flatMap fun r =>
    (List.range (gridCols g)).map fun c => (r, c)

/-- The 8-connected components of the grid's foreground, in raster-scan
first-encounter order — the order in which `skimage.measure.label`
numbers them. -/
def componentsList (g : Grid) : List (List (Nat × Nat)) :=
  (rasterCells g).foldl
    (fun comps p =>
      if fgAt g p && !(comps.any fun comp => comp.contains p)
      then comps ++ [component_of g p] else comps) []

/-- The label of a pixel under the first-encounter numbering
(`skimage.measure.label`; `0` = background). -/
def labelAt (g : Grid) (p : Nat × Nat) : Nat :=
  match (componentsList g).findIdx? fun comp => comp.contains p with
  | some i => i + 1
  | none => 0

/-- The labelled image `label(obj_int_bin)` (line 1485). -/
def labelsGrid (g : Grid) : Grid :=
  (List.range (gridRows g)).map fun r =>
    (List.range (gridCols g)).map fun c => (labelAt g (r, c) : Int)

/-- Normalized start of the numpy slice endpoint `i` on an axis of size
`n` (negative values count from the end, everything clamps to `[0, n]`). -/
def npSliceStart (n : Nat) (i : Int) : Nat :=
  (min (if 0 ≤ i then i else (n : Int) + i) (n : Int)).toNat

/-- The canvas with the static boundary zeroed
(`bag_data[np.where(boundary)] = 0`, lines 1393-1394). -/
def bag_cell (bag bnd : Grid) (r c : Nat) : Int :=
  if getCell bnd r c ≠ 0 then 0 else getCell bag r c

/-- Embedding of `BaggageImage2D.get_overlap` (lines 1382-1404), as the
intersection image `obj_int`: the window of the boundary-masked canvas of
the mask's shape starting at the pose (numpy-truncated at the canvas
edges), holding the mask's value wherever both the mask and the canvas
are nonzero.

Source: `obj_loc = bag_data[pose0 : pose0+mask.shape[0], pose1 :
pose1+mask.shape[1]]`; `obj_int = mask[:obj_loc.shape[0],
:obj_loc.shape[1]] * obj_loc.astype(bool)`. -/
def obj_int_grid (bag bnd mask : Grid) (p0 p1 : Int) : Grid :=
  let H := gridRows bag
  let W := gridCols bag
  let st0 := npSliceStart H p0
  let s0 := npSliceStart H (p0 + gridRows mask) - st0
  let st1 := npSliceStart W p1
  let s1 := npSliceStart W (p1 + gridCols mask) - st1
  (List.range s0).map fun r =>
    (List.range s1).map fun c =>
      if bag_cell bag bnd (st0 + r) (st1 + c) ≠ 0 then getCell mask r c else 0

/-- `OVERLAP_FLAG` of `get_overlap`: is any pixel of `obj_int` nonzero? -/
def overlap_flag (bag bnd mask : Grid) (p0 p1 : Int) : Bool :=
  (obj_int_grid bag bnd mask p0 p1).any fun row => row.any fun v => v != 0

/-- Does row `r` of the grid contain a pixel with value `x`? -/
def rowHasVal (g : Grid) (x : Int) (r : Nat) : Bool :=
  (List.range (gridCols g)).any fun c => getCell g r c == x

/-- Does column `c` of the grid contain a pixel with value `x`? -/
def colHasVal (g : Grid) (x : Int) (c : Nat) : Bool :=
  (List.range (gridRows g)).any fun r => getCell g r c == x

/-- Environment of one `run_shape_grammar_overlap` call: the canvas slice
(`ws_bag[:,:,slice_no]`), the boundary slice, the object's raster
(`bag_obj.data`), the object's bounding dimension `dim[0]`, and the
instance geometry (`size`, `bb_h`) fixing `ground_y = size//2 + bb_h`
(line 1528). -/
structure OvEnv where
  bag : Grid
  bnd : Grid
  mask : Grid
  dim0 : Int
  size : Nat
  bb_h : Nat

/-- `ground_y` of the overlap rule (line 1528). -/
def OvEnv.ground_y (env : OvEnv) : Int :=
  (env.size / 2 + env.bb_h : Nat)

/-- Mutable state of one `run_shape_grammar_overlap` call: the object's
pose, the two shift-enable flags, the instance flag `LATERAL_OSC_FLAG`,
and `hist` — the sequence of values a value-semantics `pose_list` would
hold (the source's `pose_list` stores references to the one mutable
`bag_obj.pose` array, so all of its entries alias the current pose; the
embedding keeps the appended values so that the oscillation check the
spec describes can be stated against it). -/
structure OvState where
  pose0 : Int
  pose1 : Int
  rowShift : Bool
  colShift : Bool
  latOsc : Bool
  hist : List (Int × Int)

/-- One iteration of the `while OVERLAP_FLAG` body of
`run_shape_grammar_overlap` (lines 1479-1546), returning the new state
and whether the `GROUND_FLAG` break fired.

The oscillation check (lines 1534-1544) compares `bag_obj.pose` with
`pose_list[-2]`; since every entry of `pose_list` aliases `bag_obj.pose`
itself, the comparison is between the current pose and the current pose
and therefore always succeeds once `ol_ctr >= 2`: the escape shift
`pose[0] -= bbox_dim[0]+1` is applied and both shift flags are cleared on
every iteration from the third on. -/
def ov_body (env : OvEnv) (st : OvState) (ol_ctr : Nat) : OvState × Bool :=
  let gInt := obj_int_grid env.bag env.bnd env.mask st.pose0 st.pose1
  let labels := labelsGrid gInt
  let K := (componentsList gInt).length
  let keep : Int := (max_ind labels K : Int)
  let rmin := firstSuchThat (rowHasVal labels keep) (gridRows labels)
  let rmax := lastSuchThat (rowHasVal labels keep) (gridRows labels)
  let cmin := firstSuchThat (colHasVal labels keep) (gridCols labels)
  let cmax := lastSuchThat (colHasVal labels keep) (gridCols labels)
  let bdr := rmax - rmin
  let bdc := cmax - cmin
  let maxo0 := gridRows gInt - 1
  let maxo1 := gridCols gInt - 1
  let pose0 :=
    if st.rowShift then
      if rmin = 0 ∧ rmax = maxo0 then st.pose0
      else if rmax = maxo0 then st.pose0 - (bdr + 1)
      else if rmin = 0 then st.pose0 + (bdr + 1)
      else st.pose0
    else st.pose0
  let pose1 :=
    if st.colShift then
      if cmin = 0 ∧ cmax = maxo1 then st.pose1
      else if cmax = maxo1 then st.pose1 - (bdc + 1)
      else if cmin = 0 then st.pose1 + (bdc + 1)
      else st.pose1
    else st.pose1
  if env.ground_y ≤ pose0 + env.dim0 then
    ({ st with pose0 := pose0, pose1 := pose1 }, true)
  else
    let hist := st.hist ++ [(pose0, pose1)]
    if 2 ≤ ol_ctr then
      ({ pose0 := pose0 - (bdr + 1), pose1 := pose1,
         rowShift := false, colShift := false, latOsc := true,
         hist := hist }, false)
    else
      ({ st with pose0 := pose0, pose1 := pose1, hist := hist }, false)

/-- The `while OVERLAP_FLAG` loop of `run_shape_grammar_overlap`
(lines 1479-1549).  `ol_ctr` increments by one per iteration and the loop
breaks when it reaches `10`, so the remaining budget `10 - ol_ctr` is
passed as structural fuel; the returned `Nat` counts the iterations
executed. -/
def ov_loop (env : OvEnv) : OvState → Nat → Nat → OvState × Nat
  | st, _, 0 => (st, 0)
  | st, ol_ctr, fuel + 1 =>
    if overlap_flag env.bag env.bnd env.mask st.pose0 st.pose1 then
      let sb := ov_body env st ol_ctr
      if sb.2 then (sb.1, 1)
      else
        let rec_res := ov_loop env sb.1 (ol_ctr + 1) fuel
        (rec_res.1, rec_res.2 + 1)
    else (st, 0)

/-- Embedding of `BaggageImage2D.run_shape_grammar_overlap`
(lines 1451-1552) up to the final `place_object_in_bag`: the resolution
loop starting from the given pose with the given shift enables
(`row_shift`/`col_shift` default to `True`; the gravity rule's floor case
passes `row_shift=False`), returning the final state and the number of
loop iterations executed. -/
def run_shape_grammar_overlap (env : OvEnv) (pose0 pose1 : Int)
    (rowShift colShift : Bool) : OvState × Nat :=
  ov_loop env
    { pose0 := pose0, pose1 := pose1, rowShift := rowShift,
      colShift := colShift, latOsc := false, hist := [(pose0, pose1)] }
    0 10

/-- Inner loop of `skimage.draw.line` (Bresenham): emit `n` points,
advancing the primary coordinate `c` every step and the secondary
coordinate `r` when the error term `d` is non-negative. -/
def bres_go (sr sc : Int) (ddr ddc : Nat) : Nat → Int → Int → Int → List (Int × Int)
  | 0, _, _, _ => []
  | n + 1, r, c, d =>
    (r, c) ::
      (let r' := if 0 ≤ d then r + sr else r
       let d' := (if 0 ≤ d then d - 2 * ddc else d) + 2 * ddr
       bres_go sr sc ddr ddc n r' (c + sc) d')

/-- `skimage.draw.line(r0, c0, r1, c1)`: the Bresenham raster of the
segment, both endpoints included (`dc+1` points after the steep swap). -/
def line_pts (r0 c0 r1 c1 : Int) : List (Int × Int) :=
  let dr := (r1 - r0).natAbs
  let dc := (c1 - c0).natAbs
  let sr : Int := if r0 < r1 then 1 else -1
  let sc : Int := if c0 < c1 then 1 else -1
  if dc < dr then
    (bres_go sc sr dc dr dr c0 r0 (2 * (dc : Int) - dr)).map (fun p => (p.2, p.1))
      ++ [(r1, c1)]
  else
    bres_go sr sc dr dc dc r0 c0 (2 * (dr : Int) - dc) ++ [(r1, c1)]

/-- A point of a sheet curve, in canvas coordinates. -/
abbrev Pt := Nat × Nat

/-- Canvas read at a signed coordinate pair (the points fed to the sheet
fitter are in-canvas; reads elsewhere default to background). -/
def canvasAt (bag : Grid) (p : Int × Int) : Int :=
  if 0 ≤ p.1 ∧ 0 ≤ p.2 then getCell bag p.1.toNat p.2.toNat else 0

/-- Does the rasterized segment between `p` and `q` touch occupied canvas
content (`np.any(self.ws_bag[:,:,slice][line_pts])`, line 1571)? -/
def seg_overlap (bag : Grid) (p q : Pt) : Bool :=
  (line_pts p.1 p.2 q.1 q.2).any fun pt => canvasAt bag pt != 0

/-- Distance between two naturals. -/
def natDist (a b : Nat) : Nat := max a b - min a b

/-- Rows of column `col` holding background
(`np.where(ws_bag[:, col, slice] == 0)[0]`, ascending). -/
def free_rows (bag : Grid) (col : Nat) : List Nat :=
  (List.range (gridRows bag)).filter fun r => getCell bag r col == 0

/-- The free row of column `col` nearest to `q`
(`np.argmin(abs(free - q))`: first minimum, so ties resolve to the
smaller row); `none` when the column has no free row, in which case the
source raises out of `argmin` of an empty array. -/
def nearest_free_row (bag : Grid) (col : Nat) (q : Nat) : Option Nat :=
  (free_rows bag col).foldl
    (fun acc r =>
      match acc with
      | none => some r
      | some b => if natDist r q < natDist b q then some r else acc)
    none

/-- Embedding of `BaggageImage2D.run_midpoint_recursion`
(lines 1555-1603).  Result: `none` = recursion deeper than the supplied
fuel (never reached from in-canvas points with `midpoint_fuel`, see the
termination theorem), `some (Except.error ())` = the relocation column
had no free cell (`argmin` of an empty array raises in the source),
`some (Except.ok segs)` = the list of leaf sub-segments.

Source steps: rasterize the segment; if it overlaps nothing return it
unsplit; otherwise take the integer midpoint (`np.average(...).astype(int)`,
i.e. the floor for the non-negative coordinates in use), relocate its row
to the nearest free cell of its column, return the segment unsplit if the
relocated midpoint coincides with either endpoint, and otherwise recurse
on `(p0, mid)` and `(p1, mid)` and concatenate. -/
def run_midpoint_recursion (bag : Grid) : Nat → Pt × Pt → Option (Except Unit (List (Pt × Pt)))
  | 0, _ => none
  | fuel + 1, pts =>
    if seg_overlap bag pts.1 pts.2 then
      let midc := (pts.1.2 + pts.2.2) / 2
      match nearest_free_row bag midc ((pts.1.1 + pts.2.1) / 2) with
      | none => some (Except.error ())
      | some mr =>
        let mid : Pt := (mr, midc)
        if mid = pts.1 ∨ mid = pts.2 then some (Except.ok [pts])
        else
          match run_midpoint_recursion bag fuel (pts.1, mid) with
          | none => none
          | some (Except.error e) => some (Except.error e)
          | some (Except.ok l1) =>
            match run_midpoint_recursion bag fuel (pts.2, mid) with
            | none => none
            | some (Except.error e) => some (Except.error e)
            | some (Except.ok l2) => some (Except.ok (l1 ++ l2))
    else some (Except.ok [pts])

/-- Fuel sufficient for the midpoint recursion from any in-canvas points
(a bound on the lexicographic termination measure proved below). -/
def midpoint_fuel (bag : Grid) : Nat :=
  3 * (gridCols bag + 1) * (gridRows bag + 2) * (gridRows bag + 2) + 1

/-- Endpoint pre-relocation of `generate_sheet_curve` (lines 1623-1632):
an endpoint sitting on occupied content moves to the nearest free cell of
its own column. -/
def relocate_endpoint (bag : Grid) (pt : Pt) : Option Pt :=
  if 0 < getCell bag pt.1 pt.2 then
    (nearest_free_row bag pt.2 pt.1).map fun r => (r, pt.2)
  else some pt

/-- `np.clip v 0 hi` followed by the cast to canvas coordinates. -/
def clip0 (hi v : Int) : Nat := (min (max v 0) hi).toNat

/-- Minimum of a list of naturals (`0` for `[]`; all uses are nonempty). -/
def nat_list_min (l : List Nat) : Nat := l.foldl min (l.headD 0)

/-- Maximum of a list of naturals. -/
def nat_list_max (l : List Nat) : Nat := l.foldl max 0

/-- All row coordinates of a segment list (`fin_curve_pts[:, 0]`). -/
def seg_rows (segs : List (Pt × Pt)) : List Nat :=
  segs.flatMap fun s => [s.1.1, s.2.1]

/-- All column coordinates of a segment list (`fin_curve_pts[:, 1]`). -/
def seg_cols (segs : List (Pt × Pt)) : List Nat :=
  segs.flatMap fun s => [s.1.2, s.2.2]

/-- Draw every segment's Bresenham raster into a fresh `h × w` binary
grid (lines 1661-1672). -/
def draw_segments (h w : Nat) (segs : List (Pt × Pt)) : Grid :=
  (List.range h).map fun (r : Nat) =>
    (List.range w).map fun (c : Nat) =>
      if segs.any fun s =>
          (line_pts s.1.1 s.1.2 s.2.1 s.2.2).contains ((r : Int), (c : Int))
      then 1 else 0

/-- Embedding of `BaggageImage2D.generate_sheet_curve` (lines 1606-1675):
shift the curve points into canvas coordinates and clip, relocate
overlapping endpoints to free cells of their columns, run the midpoint
recursion on the two halves around the midpoint, rebase all leaf segments
to the bounding-box corner which becomes the new pose, and rasterize the
leaf segments into a fresh tight mask. -/
def generate_sheet_curve (bag : Grid) (bb_h : Nat) (fuel : Nat)
    (pose0 pose1 : Int) (cp0 cp1 : Int × Int) :
    Option (Except Unit ((Nat × Nat) × Grid)) :=
  let hi : Int := 2 * (bb_h : Int) - 1
  let q0 : Pt := (clip0 hi (cp0.1 + pose0), clip0 hi (cp0.2 + pose1))
  let q1 : Pt := (clip0 hi (cp1.1 + pose0), clip0 hi (cp1.2 + pose1))
  match relocate_endpoint bag q0, relocate_endpoint bag q1 with
  | some e0, some e1 =>
    let mid : Pt := ((e0.1 + e1.1) / 2, (e0.2 + e1.2) / 2)
    (match run_midpoint_recursion bag fuel (e0, mid) with
     | none => none
     | some (Except.error e) => some (Except.error e)
     | some (Except.ok l1) =>
       match run_midpoint_recursion bag fuel (e1, mid) with
       | none => none
       | some (Except.error e) => some (Except.error e)
       | some (Except.ok l2) =>
         let segs := l1 ++ l2
         let rmin := nat_list_min (seg_rows segs)
         let rmax := nat_list_max (seg_rows segs)
         let cmin := nat_list_min (seg_cols segs)
         let cmax := nat_list_max (seg_cols segs)
         let rebased := segs.map fun s =>
           ((s.1.1 - rmin, s.1.2 - cmin), (s.2.1 - rmin, s.2.2 - cmin))
         some (Except.ok ((rmin, cmin),
           draw_segments (rmax - rmin + 1) (cmax - cmin + 1) rebased)))
  | _, _ => some (Except.error ())

/-- One output pixel of `skimage.morphology.binary_dilation` with
`disk t` (out-of-image counts as background). -/
def dilatedCell (data : Grid) (t : Nat) (r c : Nat) : Bool :=
  (disk_offsets t).any fun d =>
    let rr : Int := (r : Int) + d.1
    let cc : Int := (c : Int) + d.2
    if 0 ≤ rr ∧ rr < (gridRows data : Int) ∧ 0 ≤ cc ∧ cc < (gridCols data : Int)
    then getCell data rr.toNat cc.toNat != 0
    else false

/-- Embedding of `BaggageImage2D.inflate_sheet` (lines 1707-1723):
dilate the 1-pixel curve by `disk(axes[0])`, zero the dilated pixels that
now overlap occupied canvas content, and scale by the object's label. -/
def inflate_sheet (bag bnd : Grid) (lab : Int) (t : Nat) (pose0 pose1 : Int)
    (data : Grid) : Grid :=
  let dil : Grid :=
    (List.range (gridRows data)).map fun r =>
      (List.range (gridCols data)).map fun c =>
        if dilatedCell data t r c then 1 else 0
  let ov := obj_int_grid bag bnd dil pose0 pose1
  (List.range (gridRows dil)).map fun r =>
    (List.range (gridCols dil)).map fun c =>
      if getCell dil r c ≠ 0 ∧ getCell ov r c = 0 then lab else 0

/-- Environment of the gravity rule: the canvas and boundary slices, the
instance geometry, and the descent increment `z_inc` (default `50`). -/
structure GravEnv where
  bag : Grid
  bnd : Grid
  size : Nat
  bb_h : Nat
  extents : Option (Nat × Nat)
  z_inc : Int

/-- `ground_y` of the gravity rule (lines 1740-1743): from the bag mask's
extents when one is present, else from `bb_h`. -/
def GravEnv.ground_y (env : GravEnv) : Int :=
  match env.extents with
  | none => (env.size / 2 + env.bb_h : Nat)
  | some e => (env.size / 2 + e.1 / 2 : Nat)

/-- The mutable fields of the object during gravity placement. -/
structure GravObj where
  shape_S : Bool
  pose0 : Int
  pose1 : Int
  dim0 : Int
  dim1 : Int
  data : Grid
  curve0 : Int × Int
  curve1 : Int × Int
  sheet_thick : Nat
  lab : Int

/-- State threaded through the gravity descent: the object, the inner
overlap counter `ol_ctr` (initialized once before the descent, line 1748,
and reset only when it exceeds the inner cap), and whether the sheet path
aborted on an error the source would have raised. -/
structure GravState where
  obj : GravObj
  ol_ctr : Nat
  err : Bool

/-- Result of the inner `while OVERLAP_FLAG` loop of the gravity rule. -/
structure InnerRes where
  obj : GravObj
  ol_ctr : Nat
  lat : Bool
  osc : Bool

/-- The inner collision loop of the gravity rule (lines 1813-1826): while
the object overlaps, call the overlap rule (both axes, `fix_obj=False`),
recompute, compare the pose against the outer iteration's starting pose
(`osc_cond`), and break — resetting `ol_ctr` — once `ol_ctr` exceeds 10.
`ol_ctr` enters at most `10`, so fuel `12` never runs out before the
source's own break. -/
def grav_inner (env : GravEnv) (prev : Int × Int) :
    GravObj → Nat → Bool → Bool → Nat → InnerRes
  | obj, ol_ctr, lat, osc, 0 => ⟨obj, ol_ctr, lat, osc⟩
  | obj, ol_ctr, lat, osc, fuel + 1 =>
    if overlap_flag env.bag env.bnd obj.data obj.pose0 obj.pose1 then
      let ol := ol_ctr + 1
      let res := run_shape_grammar_overlap
        ⟨env.bag, env.bnd, obj.data, obj.dim0, env.size, env.bb_h⟩
        obj.pose0 obj.pose1 true true
      let obj' := { obj with pose0 := res.1.pose0, pose1 := res.1.pose1 }
      let lat' := lat || res.1.latOsc
      let osc' := obj'.pose0 == prev.1 && obj'.pose1 == prev.2
      if 10 < ol then ⟨obj', 0, lat', osc'⟩
      else grav_inner env prev obj' ol lat' osc' fuel
    else ⟨obj, ol_ctr, lat, osc⟩

/-- One iteration of the gravity descent (lines 1752-1829), returning the
new state and whether the iteration broke out of the descent.

Non-sheet path: translate down by `z_inc`; on a floor crossing clamp the
pose exactly to the floor (`pose[0] -= pose[0] + dim[0] - ground_y`), run
one column-only overlap pass if residual overlap remains, and stop;
otherwise resolve overlap with the inner loop and stop early on a pose
stall or a lateral-oscillation flag.

Sheet path: on a floor crossing or an endpoint collision, pull offending
curve endpoints back above the floor, regenerate the deformed curve,
inflate it to the sheet thickness, and stop. -/
def grav_body (env : GravEnv) (st : GravState) : GravState × Bool :=
  let obj := st.obj
  let prev : Int × Int := (obj.pose0, obj.pose1)
  let pose0 := obj.pose0 + env.z_inc
  let g := env.ground_y
  if obj.shape_S then
    let x0 := pose0 + obj.curve0.1
    let x1 := pose0 + obj.curve1.1
    let sheetGround := g ≤ x0 ∨ g ≤ x1
    let coll := 0 < canvasAt env.bag obj.curve0 ∨ 0 < canvasAt env.bag obj.curve1
    if sheetGround ∨ coll then
      let gd := max (max (x0 - g) (x1 - g)) 0
      let c0 := if g < x0 then (obj.curve0.1 - gd, obj.curve0.2) else obj.curve0
      let c1 := if g < x1 then (obj.curve1.1 - gd, obj.curve1.2) else obj.curve1
      match generate_sheet_curve env.bag env.bb_h (midpoint_fuel env.bag)
          pose0 obj.pose1 c0 c1 with
      | some (Except.ok pd) =>
        let data' := inflate_sheet env.bag env.bnd obj.lab obj.sheet_thick
          (pd.1.1 : Int) (pd.1.2 : Int) pd.2
        ({ st with
            obj := { obj with
              pose0 := (pd.1.1 : Int), pose1 := (pd.1.2 : Int),
              data := data', curve0 := c0, curve1 := c1 } }, true)
      | _ => ({ st with
          obj := { obj with pose0 := pose0, curve0 := c0, curve1 := c1 },
          err := true }, true)
    else ({ st with obj := { obj with pose0 := pose0 } }, false)
  else
    let ground := g ≤ pose0 + obj.dim0
    if ground then
      let pose0g := pose0 - (pose0 + obj.dim0 - g)
      if overlap_flag env.bag env.bnd obj.data pose0g obj.pose1 then
        let res := run_shape_grammar_overlap
          ⟨env.bag, env.bnd, obj.data, obj.dim0, env.size, env.bb_h⟩
          pose0g obj.pose1 false true
        ({ st with obj := { obj with pose0 := res.1.pose0, pose1 := res.1.pose1 } }, true)
      else ({ st with obj := { obj with pose0 := pose0g } }, true)
    else
      if overlap_flag env.bag env.bnd obj.data pose0 obj.pose1 then
        let r := grav_inner env prev { obj with pose0 := pose0 } st.ol_ctr false false 12
        ({ st with obj := r.obj, ol_ctr := r.ol_ctr }, r.osc || r.lat)
      else ({ st with obj := { obj with pose0 := pose0 } }, false)

/-- The gravity descent loop (`while drop_ctr < 50`, line 1752):
`drop_ctr` increments once per iteration, so the remaining budget is
structural fuel; the returned `Nat` counts the outer steps executed. -/
def grav_loop (env : GravEnv) : GravState → Nat → GravState × Nat
  | st, 0 => (st, 0)
  | st, fuel + 1 =>
    let r := grav_body env st
    if r.2 then (r.1, 1)
    else
      let rest := grav_loop env r.1 fuel
      (rest.1, rest.2 + 1)

/-- Embedding of `BaggageImage2D._adjust_for_boundaries`
(lines 1407-1448): clamp the object's bounding box to the container
bounds by trimming the raster on any overflowing side. -/
def adjust_for_boundaries (env : GravEnv) (obj : GravObj) : GravObj :=
  let half : Int := ((env.size / 2 : Nat) : Int)
  let lower0 : Int := match env.extents with
    | none => half - env.bb_h
    | some e => half - ((e.1 / 2 : Nat) : Int)
  let lower1 : Int := match env.extents with
    | none => half - env.bb_h
    | some e => half - ((e.2 / 2 : Nat) : Int)
  let upper0 : Int := match env.extents with
    | none => half + env.bb_h
    | some e => half + ((e.1 / 2 : Nat) : Int)
  let upper1 : Int := match env.extents with
    | none => half + env.bb_h
    | some e => half + ((e.2 / 2 : Nat) : Int)
  let o1 :=
    if obj.pose0 ≤ lower0 then
      let d := obj.dim0 - (lower0 - obj.pose0)
      { obj with
        pose0 := lower0, dim0 := d,
        data := obj.data.drop (npSliceStart obj.data.length (-d)) }
    else obj
  let o2 :=
    if upper0 ≤ o1.pose0 + o1.dim0 then
      let d := o1.dim0 - (o1.pose0 + o1.dim0 - upper0)
      { o1 with
        dim0 := d,
        data := o1.data.take (npSliceStart o1.data.length d) }
    else o1
  let o3 :=
    if o2.pose1 ≤ lower1 then
      let d := o2.dim1 - (lower1 - o2.pose1)
      { o2 with
        pose1 := lower1, dim1 := d,
        data := o2.data.map fun row => row.drop (npSliceStart row.length (-d)) }
    else o2
  if upper1 ≤ o3.pose1 + o3.dim1 then
    let d := o3.dim1 - (o3.pose1 + o3.dim1 - upper1)
    { o3 with
      dim1 := d,
      data := o3.data.map fun row => row.take (npSliceStart row.length d) }
  else o3

/-- Embedding of `BaggageImage2D.run_shape_grammar_overlap_and_gravity`
(lines 1726-1832) up to the final `place_object_in_bag`: run the descent
from the spawn pose (at most 50 outer steps), then clamp the final
bounding box to the container bounds.  Returns the placed object and the
number of outer descent steps executed. -/
def run_shape_grammar_overlap_and_gravity (env : GravEnv) (obj : GravObj) :
    GravObj × Nat :=
  let r := grav_loop env ⟨obj, 0, false⟩ 50
  (adjust_for_boundaries env r.1.obj, r.2)

/-- A concrete liquid container: a 7×7 diamond-shaped solid of label `4`
(the tight raster an unrotated diamond-like object would produce). -/
def diamond_container : Grid :=
  [[0, 0, 0, 4, 0, 0, 0],
   [0, 0, 4, 4, 4, 0, 0],
   [0, 4, 4, 4, 4, 4, 0],
   [4, 4, 4, 4, 4, 4, 4],
   [0, 4, 4, 4, 4, 4, 0],
   [0, 0, 4, 4, 4, 0, 0],
   [0, 0, 0, 4, 0, 0, 0]]

/-- A concrete overlap-rule environment exhibiting the aliasing bug of
`pose_list` (C3): an 8×8 canvas slice with seven occupied cells, no
boundary, a full 2×2 object of label 7, and a floor far below. -/
def c3_env : OvEnv :=
  { bag := [[5, 5, 0, 0, 0, 0, 0, 0],
            [0, 0, 0, 0, 0, 5, 0, 0],
            [5, 0, 0, 0, 0, 0, 0, 0],
            [0, 5, 0, 0, 0, 0, 0, 0],
            [5, 0, 0, 0, 0, 0, 0, 0],
            [0, 0, 0, 0, 0, 5, 0, 0],
            [0, 0, 0, 0, 0, 0, 0, 0],
            [0, 0, 0, 0, 0, 0, 0, 0]],
    bnd := [],
    mask := [[7, 7], [7, 7]],
    dim0 := 2,
    size := 100,
    bb_h := 1000 }

/-- The column in which the midpoint recursion relocates
(`mid_pt[1] = (c1 + c2) // 2`). -/
def relocCol (pts : Pt × Pt) : Nat := (pts.1.2 + pts.2.2) / 2

/-- The row query of the midpoint relocation
(`mid_pt[0] = (r1 + r2) // 2` before relocation). -/
def midRow (pts : Pt × Pt) : Nat := (pts.1.1 + pts.2.1) / 2

/-- Both points lie inside the canvas. -/
def InB (bag : Grid) (pts : Pt × Pt) : Prop :=
  pts.1.1 < gridRows bag ∧ pts.1.2 < gridCols bag ∧
  pts.2.1 < gridRows bag ∧ pts.2.2 < gridCols bag

/-- Phase of a sub-segment in the midpoint recursion, used by the
termination measure: `0` when both endpoints are free cells of the same
column, `1` when the second endpoint (always the previously relocated
midpoint in recursive calls) is a free cell of the relocation column,
`2` otherwise. -/
def flagOf (bag : Grid) (pts : Pt × Pt) : Nat :=
  if getCell bag pts.1.1 pts.1.2 = 0 ∧ getCell bag pts.2.1 pts.2.2 = 0 ∧
      pts.1.2 = pts.2.2 then 0
  else if getCell bag pts.2.1 pts.2.2 = 0 ∧ pts.2.2 = relocCol pts then 1
  else 2

/-- Termination measure of the midpoint recursion: the lexicographic
tuple (column span, phase, row span, distance of the second endpoint
from the floor midpoint row), base-encoded with radix `gridRows + 2`. -/
def mu (bag : Grid) (pts : Pt × Pt) : Nat :=
  ((natDist pts.1.2 pts.2.2 * 3 + flagOf bag pts) * (gridRows bag + 2) +
    natDist pts.1.1 pts.2.1) * (gridRows bag + 2) +
    natDist pts.2.1 (midRow pts)

/-! ## Theorems -/

/-- C1, counterexample: committing an object whose (residual-overlap)
foreground sits on a canvas cell that already holds the nonzero label `5`
overwrites that cell with the new object's value `7`.  The claim states
that a cell holding a previously placed object's nonzero label is never
changed by the commit; this closed instance refutes it. -/
theorem place_object_overwrites_nonzero_cell :
    getCell [[5]] 0 0 = 5 ∧
    place_object_in_bag [[5]] [[7]] 0 0 0 0 = 7 := by
  constructor <;> rfl

/-- C1, amended: the commit changes exactly the cells lying under a
foreground pixel of the mask truncated to the in-canvas window at the
pose: such cells receive the mask's value — regardless of whether the
canvas there was background or a previously placed nonzero label — and
every other cell of the canvas is left unchanged. -/
theorem place_object_in_bag_updates
    (canvas mask : Grid) (p0 p1 r c : Nat) :
    (p0 ≤ r ∧ r < p0 + npSliceLen (gridRows canvas) p0 (gridRows mask) ∧
     p1 ≤ c ∧ c < p1 + npSliceLen (gridCols canvas) p1 (gridCols mask) ∧
     getCell mask (r - p0) (c - p1) ≠ 0 →
       place_object_in_bag canvas mask p0 p1 r c = getCell mask (r - p0) (c - p1)) ∧
    (¬ (p0 ≤ r ∧ r < p0 + npSliceLen (gridRows canvas) p0 (gridRows mask) ∧
        p1 ≤ c ∧ c < p1 + npSliceLen (gridCols canvas) p1 (gridCols mask) ∧
        getCell mask (r - p0) (c - p1) ≠ 0) →
       place_object_in_bag canvas mask p0 p1 r c = getCell canvas r c) := by
  constructor <;> intro h
  · unfold place_object_in_bag
    rw [if_pos h]
  · unfold place_object_in_bag
    rw [if_neg h]

/-- C1, witness for the amended theorem at a concrete input: the mask
foreground pixel at the canvas origin is written. -/
theorem place_object_in_bag_updates_witness :
    place_object_in_bag [[0]] [[7]] 0 0 0 0 = getCell [[7]] 0 0 :=
  (place_object_in_bag_updates [[0]] [[7]] 0 0 0 0).1 (by decide)

/-- C10: the commit is total with respect to canvas bounds: a cell whose
value is changed by `place_object_in_bag` lies inside the canvas
(`r < rows`, `c < cols`) and inside the mask window at the pose, because
the mask is truncated to the shape of the canvas region starting at the
pose before writing.  A mask extending past the canvas edge therefore
writes only its in-bounds portion and never touches a cell outside the
canvas. -/
theorem place_object_in_bag_stays_in_bounds
    (canvas mask : Grid) (p0 p1 r c : Nat)
    (h : place_object_in_bag canvas mask p0 p1 r c ≠ getCell canvas r c) :
    r < gridRows canvas ∧ c < gridCols canvas ∧
    p0 ≤ r ∧ r < p0 + gridRows mask ∧ p1 ≤ c ∧ c < p1 + gridCols mask := by
  unfold place_object_in_bag at h
  by_cases hc : p0 ≤ r ∧ r < p0 + npSliceLen (gridRows canvas) p0 (gridRows mask) ∧
      p1 ≤ c ∧ c < p1 + npSliceLen (gridCols canvas) p1 (gridCols mask) ∧
      getCell mask (r - p0) (c - p1) ≠ 0
  · obtain ⟨h1, h2, h3, h4, _⟩ := hc
    unfold npSliceLen at h2 h4
    omega
  · simp only [if_neg hc] at h
    exact absurd rfl h

/-- C10, witness: a 1×1 mask committed at pose `(1,1)` of a 2×2 canvas
changes cell `(1,1)`, which the theorem places inside the canvas and the
mask window. -/
theorem place_object_in_bag_stays_in_bounds_witness :
    1 < gridRows [[0, 0], [0, 0]] ∧ 1 < gridCols [[0, 0], [0, 0]] ∧
    1 ≤ 1 ∧ 1 < 1 + gridRows [[9]] ∧ 1 ≤ 1 ∧ 1 < 1 + gridCols [[9]] :=
  place_object_in_bag_stays_in_bounds [[0, 0], [0, 0]] [[9]] 1 1 1 1 (by decide)

/-- The overlap-resolution loop executes at most `fuel` iterations. -/
theorem ov_loop_iters_le (env : OvEnv) :
    ∀ (fuel : Nat) (st : OvState) (ctr : Nat),
      (ov_loop env st ctr fuel).2 ≤ fuel := by
  intro fuel
  induction fuel with
  | zero => intro st ctr; exact Nat.le_refl 0
  | succ n ih =>
    intro st ctr
    unfold ov_loop
    dsimp only
    split
    · split
      · exact Nat.succ_le_succ (Nat.zero_le n)
      · exact Nat.succ_le_succ (ih _ _)
    · exact Nat.zero_le _

/-- The gravity descent executes at most `fuel` outer steps. -/
theorem grav_loop_iters_le (env : GravEnv) :
    ∀ (fuel : Nat) (st : GravState),
      (grav_loop env st fuel).2 ≤ fuel := by
  intro fuel
  induction fuel with
  | zero => intro st; exact Nat.le_refl 0
  | succ n ih =>
    intro st
    unfold grav_loop
    dsimp only
    split
    · exact Nat.succ_le_succ (Nat.zero_le n)
    · exact Nat.succ_le_succ (ih _)

/-- C4: both placement loops are bounded for every object and canvas
state: the overlap-resolution loop of `run_shape_grammar_overlap`
executes at most 10 iterations (its counter increments every iteration
and the loop breaks at `ol_ctr == 10`), and the gravity descent of
`run_shape_grammar_overlap_and_gravity` executes at most 50 outer steps
(`while drop_ctr < 50` with `drop_ctr += 1` each step). -/
theorem placement_loops_bounded :
    (∀ (env : OvEnv) (pose0 pose1 : Int) (rs cs : Bool),
        (run_shape_grammar_overlap env pose0 pose1 rs cs).2 ≤ 10) ∧
    (∀ (env : GravEnv) (obj : GravObj),
        (run_shape_grammar_overlap_and_gravity env obj).2 ≤ 50) := by
  constructor
  · intro env pose0 pose1 rs cs
    exact ov_loop_iters_le env 10 _ 0
  · intro env obj
    exact grav_loop_iters_le env 50 _

/-- C9: when the liquid rule hits its numeric failure — the eroded
cavity is empty, so `e_row.max()` raises inside the `try` before any
write to `self.data` — the exception is swallowed and the container's
raster is left unmodified (and the embedding is a total function: no
exception escapes the rule). -/
theorem liquid_rule_noop_on_failure
    (data : Grid) (t : Nat) (level : ℚ) (ll : Int) (r c : Nat)
    (h : cavityEmpty data t = true) :
    apply_liquid_container_rule data t level ll r c = getCell data r c := by
  unfold apply_liquid_container_rule
  rw [if_pos h]

/-- C9, witness: a container whose wall thickness exhausts the cavity
(`disk 1` erosion of a single corner pixel is empty) is left unmodified. -/
theorem liquid_rule_noop_on_failure_witness :
    apply_liquid_container_rule [[4, 0], [0, 0]] 1 (1 / 2) 9 0 0 =
      getCell [[4, 0], [0, 0]] 0 0 :=
  liquid_rule_noop_on_failure [[4, 0], [0, 0]] 1 (1 / 2) 9 0 0 (by decide)

/-- Every element of a list is at most its maximum. -/
theorem list_max_ge : ∀ (l : List Int), ∀ x ∈ l, x ≤ list_max l := by
  intro l
  induction l with
  | nil => intro x hx; cases hx
  | cons a t ih =>
    intro x hx
    cases t with
    | nil =>
      rcases List.mem_cons.mp hx with h | h
      · rw [h]
        exact le_refl _
      · cases h
    | cons b t2 =>
      rcases List.mem_cons.mp hx with h | h
      · rw [h]
        exact le_max_left _ _
      · exact le_trans (ih x h) (le_max_right _ _)

/-- `np.argmax` returns an in-range index of the maximum, and every index
before it holds a strictly smaller value (first-occurrence semantics). -/
theorem np_argmax_spec : ∀ l : List Int, l ≠ [] →
    np_argmax l < l.length ∧
    l.getD (np_argmax l) 0 = list_max l ∧
    ∀ j, j < np_argmax l → l.getD j 0 < list_max l := by
  intro l
  induction l with
  | nil => intro h; exact absurd rfl h
  | cons a t ih =>
    intro _
    cases t with
    | nil =>
      refine ⟨Nat.zero_lt_one, rfl, ?_⟩
      intro j hj
      exact absurd hj (Nat.not_lt_zero j)
    | cons b t2 =>
      by_cases hmax : list_max (b :: t2) ≤ a
      · have hdef : np_argmax (a :: b :: t2) = 0 := by
          show (if list_max (b :: t2) ≤ a then 0 else np_argmax (b :: t2) + 1) = 0
          rw [if_pos hmax]
        have hlm : list_max (a :: b :: t2) = a := by
          show max a (list_max (b :: t2)) = a
          exact max_eq_left hmax
        refine ⟨?_, ?_, ?_⟩
        · rw [hdef]; exact Nat.zero_lt_succ _
        · rw [hdef, hlm]; rfl
        · intro j hj
          rw [hdef] at hj
          exact absurd hj (Nat.not_lt_zero j)
      · have hlt : a < list_max (b :: t2) := lt_of_not_le hmax
        have hdef : np_argmax (a :: b :: t2) = np_argmax (b :: t2) + 1 := by
          show (if list_max (b :: t2) ≤ a then 0 else np_argmax (b :: t2) + 1) = _
          rw [if_neg hmax]
        have hlm : list_max (a :: b :: t2) = list_max (b :: t2) := by
          show max a (list_max (b :: t2)) = list_max (b :: t2)
          exact max_eq_right (le_of_lt hlt)
        obtain ⟨ih1, ih2, ih3⟩ := ih (by simp)
        refine ⟨?_, ?_, ?_⟩
        · rw [hdef]
          exact Nat.succ_lt_succ ih1
        · rw [hdef, hlm, List.getD_cons_succ]
          exact ih2
        · intro j hj
          rw [hdef] at hj
          rw [hlm]
          cases j with
          | zero => exact hlt
          | succ j2 =>
            rw [List.getD_cons_succ]
            exact ih3 j2 (Nat.lt_of_succ_lt_succ hj)

/-- The sum of the entries of a list equal to `x` is `x` times their
number. -/
theorem filter_eq_sum (x : Int) :
    ∀ l : List Int,
      (l.filter fun v => v == x).sum = x * ((l.filter fun v => v == x).length : Int) := by
  intro l
  induction l with
  | nil => simp
  | cons v t ih =>
    by_cases h : v == x
    · have hv : v = x := beq_iff_eq.mp h
      subst hv
      simp only [List.filter_cons, beq_self_eq_true, if_pos, List.sum_cons,
        List.length_cons]
      rw [ih]
      push_cast
      ring
    · simp only [List.filter_cons, h]
      exact ih

/-- The source's pixel-count expression `obj_int_bin[obj_int_bin==x].sum()//x`
equals the number of pixels labelled `x`, for a positive label. -/
theorem label_sum_div (labels : Grid) (x : Int) (hx : x ≠ 0) :
    label_sum labels x / x = (label_count labels x : Int) := by
  have hs : label_sum labels x = x * (label_count labels x : Int) := by
    unfold label_sum label_count
    induction labels with
    | nil => simp
    | cons row t ih =>
      simp only [List.map_cons, List.sum_cons, ih, filter_eq_sum x row]
      push_cast
      ring
  rw [hs]
  exact Int.mul_ediv_cancel_left _ hx

/-- `pix_cnt` has one entry per component. -/
theorem pix_cnt_length (labels : Grid) (K : Nat) :
    (pix_cnt labels K).length = K := by
  unfold pix_cnt
  rw [List.length_map, List.length_range]

/-- Entry `j` of `pix_cnt` is the number of pixels of component `j+1`. -/
theorem pix_cnt_getD (labels : Grid) (K j : Nat) (hj : j < K) :
    (pix_cnt labels K).getD j 0 = (label_count labels ((j : Int) + 1) : Int) := by
  have h1 : (pix_cnt labels K)[j]? =
      some (label_sum labels ((j : Int) + 1) / ((j : Int) + 1)) := by
    unfold pix_cnt
    rw [List.getElem?_map, List.getElem?_range hj]
    rfl
  rw [List.getD_eq_getElem?_getD, h1]
  exact label_sum_div labels ((j : Int) + 1) (by omega)

/-- One row of the clearing step, cellwise. -/
theorem getD_map_clear (keep : Int) :
    ∀ (row : List Int) (c : Nat),
      (row.map fun v => if v == keep then v else 0).getD c 0 =
        if row.getD c 0 == keep then row.getD c 0 else 0 := by
  intro row
  induction row with
  | nil =>
    intro c
    simp [List.getD]
  | cons v t ih =>
    intro c
    cases c with
    | zero => simp [List.map_cons, List.getD_cons_zero]
    | succ c2 =>
      simp only [List.map_cons, List.getD_cons_succ]
      exact ih c2

/-- The clearing step `obj_int_bin[obj_int_bin != max_ind] = 0`,
cellwise. -/
theorem getCell_clear_non_max (labels : Grid) (keep : Int) (r c : Nat) :
    getCell (clear_non_max labels keep) r c =
      if getCell labels r c == keep then getCell labels r c else 0 := by
  unfold getCell clear_non_max
  induction labels generalizing r with
  | nil =>
    simp [List.getD]
  | cons row t ih =>
    cases r with
    | zero =>
      simp only [List.map_cons, List.getD_cons_zero]
      exact getD_map_clear keep row c
    | succ r2 =>
      simp only [List.map_cons, List.getD_cons_succ]
      exact ih r2

/-- C7: when the overlap-resolution step labels the intersection with
components `1..K` (`K ≥ 1` whenever the overlap flag is set), the
selected component `max_ind = np.argmax(pix_cnt) + 1` has a maximal
pixel count, every component with a smaller index has a strictly smaller
pixel count (so equal-count ties resolve to the smallest,
first-encountered label), and the clearing step keeps exactly the pixels
of the selected component. -/
theorem overlap_selection_keeps_first_largest (labels : Grid) (K : Nat)
    (hK : 1 ≤ K) :
    1 ≤ max_ind labels K ∧ max_ind labels K ≤ K ∧
    (∀ j : Nat, 1 ≤ j → j ≤ K →
      label_count labels (j : Int) ≤ label_count labels (max_ind labels K : Int)) ∧
    (∀ j : Nat, 1 ≤ j → j < max_ind labels K →
      label_count labels (j : Int) < label_count labels (max_ind labels K : Int)) ∧
    (∀ r c : Nat, getCell (clear_non_max labels (max_ind labels K : Int)) r c ≠ 0 ↔
      getCell labels r c = (max_ind labels K : Int)) := by
  have hlen : (pix_cnt labels K).length = K := pix_cnt_length labels K
  have hne : pix_cnt labels K ≠ [] := by
    intro h
    rw [h] at hlen
    simp at hlen
    omega
  obtain ⟨h1, h2, h3⟩ := np_argmax_spec (pix_cnt labels K) hne
  rw [hlen] at h1
  set i := np_argmax (pix_cnt labels K) with hi
  have hmax_ind : max_ind labels K = i + 1 := rfl
  have hcnt_i : (pix_cnt labels K).getD i 0 = (label_count labels ((i : Int) + 1) : Int) :=
    pix_cnt_getD labels K i h1
  refine ⟨by omega, by omega, ?_, ?_, ?_⟩
  · intro j hj1 hjK
    have hj' : j - 1 < K := by omega
    have hgd : (pix_cnt labels K).getD (j - 1) 0 =
        (label_count labels (((j - 1 : Nat) : Int) + 1) : Int) :=
      pix_cnt_getD labels K (j - 1) hj'
    have hmem : (pix_cnt labels K).getD (j - 1) 0 ∈ pix_cnt labels K := by
      rw [List.getD_eq_getElem _ _ (by omega)]
      exact List.getElem_mem _
    have hle := list_max_ge (pix_cnt labels K) _ hmem
    rw [← h2] at hle
    rw [hgd, hcnt_i] at hle
    have hcast : ((j - 1 : Nat) : Int) + 1 = (j : Int) := by omega
    rw [hcast] at hle
    have : ((i : Int) + 1) = ((max_ind labels K : Nat) : Int) := by
      rw [hmax_ind]
      push_cast
      ring
    rw [this] at hle
    exact_mod_cast hle
  · intro j hj1 hjlt
    rw [hmax_ind] at hjlt
    have hj' : j - 1 < i := by omega
    have hgd : (pix_cnt labels K).getD (j - 1) 0 =
        (label_count labels (((j - 1 : Nat) : Int) + 1) : Int) :=
      pix_cnt_getD labels K (j - 1) (by omega)
    have hlt := h3 (j - 1) hj'
    rw [← h2] at hlt
    rw [hgd, hcnt_i] at hlt
    have hcast : ((j - 1 : Nat) : Int) + 1 = (j : Int) := by omega
    rw [hcast] at hlt
    have : ((i : Int) + 1) = ((max_ind labels K : Nat) : Int) := by
      rw [hmax_ind]
      push_cast
      ring
    rw [this] at hlt
    exact_mod_cast hlt
  · intro r c
    rw [getCell_clear_non_max]
    by_cases hv : getCell labels r c == ((max_ind labels K : Nat) : Int)
    · rw [if_pos hv]
      have heq := beq_iff_eq.mp hv
      constructor
      · intro _
        exact heq
      · intro _
        rw [heq]
        have hne0 : ((max_ind labels K : Nat) : Int) ≠ 0 := by
          rw [hmax_ind]
          push_cast
          omega
        exact hne0
    · rw [if_neg hv]
      constructor
      · intro h
        exact absurd rfl h
      · intro h
        exact absurd (beq_iff_eq.mpr h) hv

/-- C7, witness: on a two-component labelling with equal pixel counts the
selection picks component `1` — the smaller, first-encountered label. -/
theorem overlap_selection_keeps_first_largest_witness :
    1 ≤ max_ind [[1, 0, 2], [1, 0, 2]] 2 ∧ max_ind [[1, 0, 2], [1, 0, 2]] 2 ≤ 2 :=
  ⟨(overlap_selection_keeps_first_largest [[1, 0, 2], [1, 0, 2]] 2 (by decide)).1,
   (overlap_selection_keeps_first_largest [[1, 0, 2], [1, 0, 2]] 2 (by decide)).2.1⟩

/-- The head of a strictly increasing list is a lower bound. -/
theorem headD_le_of_pairwise :
    ∀ (l : List Nat), l.Pairwise (· < ·) → ∀ k ∈ l, l.headD 0 ≤ k := by
  intro l hl k hk
  cases l with
  | nil => cases hk
  | cons a t =>
    rcases List.mem_cons.mp hk with h | h
    · rw [h]
      exact Nat.le_refl _
    · exact le_of_lt ((List.pairwise_cons.mp hl).1 k h)

/-- The last element of a strictly increasing list is an upper bound. -/
theorem le_getLastD_of_pairwise :
    ∀ (l : List Nat), l.Pairwise (· < ·) → ∀ k ∈ l, k ≤ l.getLastD 0 := by
  intro l
  induction l with
  | nil => intro _ k hk; cases hk
  | cons a t ih =>
    intro hl k hk
    obtain ⟨ha, ht⟩ := List.pairwise_cons.mp hl
    cases t with
    | nil =>
      rcases List.mem_cons.mp hk with h | h
      · rw [h]; rfl
      · cases h
    | cons b t2 =>
      have hlast : (a :: b :: t2).getLastD 0 = (b :: t2).getLastD 0 := by
        rw [List.getLastD_cons, List.getLastD_cons, List.getLastD_cons]
      rw [hlast]
      rcases List.mem_cons.mp hk with h | h
      · rw [h]
        exact le_trans (le_of_lt (ha b (List.mem_cons_self b t2)))
          (ih ht b (List.mem_cons_self b t2))
      · exact ih ht k h

/-- The head of a nonempty list is a member. -/
theorem headD_mem_of_ne_nil : ∀ (l : List Nat), l ≠ [] → l.headD 0 ∈ l := by
  intro l hl
  cases l with
  | nil => exact absurd rfl hl
  | cons a t => exact List.mem_cons_self a t

/-- The last element of a nonempty list is a member. -/
theorem getLastD_mem_of_ne_nil : ∀ (l : List Nat), l ≠ [] → l.getLastD 0 ∈ l := by
  intro l
  induction l with
  | nil => intro h; exact absurd rfl h
  | cons a t ih =>
    intro _
    cases t with
    | nil => exact List.mem_cons_self a []
    | cons b t2 =>
      rw [List.getLastD_cons]
      have : (b :: t2).getLastD a = (b :: t2).getLastD 0 := by
        rw [List.getLastD_cons, List.getLastD_cons]
      rw [this]
      exact List.mem_cons_of_mem a (ih (by simp))

/-- `firstSuchThat` bounds any index satisfying the predicate from below,
satisfies the predicate itself, and is in range. -/
theorem firstSuchThat_spec (p : Nat → Bool) (n k : Nat)
    (hk : k < n) (hp : p k = true) :
    firstSuchThat p n ≤ k ∧ p (firstSuchThat p n) = true ∧ firstSuchThat p n < n := by
  have hmem : k ∈ (List.range n).filter p :=
    List.mem_filter.mpr ⟨List.mem_range.mpr hk, hp⟩
  have hpair : ((List.range n).filter p).Pairwise (· < ·) :=
    List.Pairwise.filter p (List.pairwise_lt_range n)
  have hne : (List.range n).filter p ≠ [] := List.ne_nil_of_mem hmem
  have hhead := headD_mem_of_ne_nil _ hne
  obtain ⟨hr, hph⟩ := List.mem_filter.mp hhead
  exact ⟨headD_le_of_pairwise _ hpair k hmem, hph, List.mem_range.mp hr⟩

/-- `lastSuchThat` bounds any index satisfying the predicate from above,
satisfies the predicate itself, and is in range. -/
theorem lastSuchThat_spec (p : Nat → Bool) (n k : Nat)
    (hk : k < n) (hp : p k = true) :
    k ≤ lastSuchThat p n ∧ p (lastSuchThat p n) = true ∧ lastSuchThat p n < n := by
  have hmem : k ∈ (List.range n).filter p :=
    List.mem_filter.mpr ⟨List.mem_range.mpr hk, hp⟩
  have hpair : ((List.range n).filter p).Pairwise (· < ·) :=
    List.Pairwise.filter p (List.pairwise_lt_range n)
  have hne : (List.range n).filter p ≠ [] := List.ne_nil_of_mem hmem
  have hlast := getLastD_mem_of_ne_nil _ hne
  obtain ⟨hr, hpl⟩ := List.mem_filter.mp hlast
  exact ⟨le_getLastD_of_pairwise _ hpair k hmem, hpl, List.mem_range.mp hr⟩

/-- `rowHasFg` unpacked. -/
theorem rowHasFg_iff (g : Grid) (r : Nat) :
    rowHasFg g r = true ↔ ∃ c, c < gridCols g ∧ getCell g r c ≠ 0 := by
  unfold rowHasFg
  simp [List.any_eq_true, List.mem_range]

/-- `colHasFg` unpacked. -/
theorem colHasFg_iff (g : Grid) (c : Nat) :
    colHasFg g c = true ↔ ∃ r, r < gridRows g ∧ getCell g r c ≠ 0 := by
  unfold colHasFg
  simp [List.any_eq_true, List.mem_range]

/-- `getD` through `take`, inside the taken range. -/
theorem getD_take {α : Type} (l : List α) (n i : Nat) (d : α) (h : i < n) :
    (l.take n).getD i d = l.getD i d := by
  rw [List.getD_eq_getElem?_getD, List.getD_eq_getElem?_getD,
    List.getElem?_take, if_pos h]

/-- `getD` through `drop`. -/
theorem getD_drop {α : Type} (l : List α) (m i : Nat) (d : α) :
    (l.drop m).getD i d = l.getD (m + i) d := by
  rw [List.getD_eq_getElem?_getD, List.getD_eq_getElem?_getD, List.getElem?_drop]

/-- `getD` through `map` on the rows of a grid, inside the range. -/
theorem getD_map_rows (f : List Int → List Int) (l : Grid) (i : Nat)
    (hi : i < l.length) :
    (l.map f).getD i [] = f (l.getD i []) := by
  rw [List.getD_eq_getElem?_getD, List.getD_eq_getElem?_getD, List.getElem?_map,
    List.getElem?_eq_getElem hi]
  rfl

/-- `headD` is `getD 0`. -/
theorem headD_eq_getD {α : Type} (l : List α) (d : α) : l.headD d = l.getD 0 d := by
  cases l <;> rfl

/-- Cells of the cropped grid are the corresponding cells of the source
grid, offset by the bounding-box minimum. -/
theorem getCell_crop (g : Grid) (hrect : Rect g) (r c : Nat)
    (hr : firstSuchThat (rowHasFg g) (gridRows g) + r < gridRows g)
    (hr2 : r < lastSuchThat (rowHasFg g) (gridRows g) -
      firstSuchThat (rowHasFg g) (gridRows g) + 2)
    (hc : firstSuchThat (colHasFg g) (gridCols g) + c < gridCols g)
    (hc2 : c < lastSuchThat (colHasFg g) (gridCols g) -
      firstSuchThat (colHasFg g) (gridCols g) + 2) :
    getCell (crop_to_bbox g) r c =
      getCell g (firstSuchThat (rowHasFg g) (gridRows g) + r)
        (firstSuchThat (colHasFg g) (gridCols g) + c) := by
  unfold gridRows at hr hr2
  unfold gridCols at hc hc2
  unfold crop_to_bbox getCell
  dsimp only
  unfold gridRows gridCols
  rw [getD_map_rows _ _ r (by rw [List.length_take, List.length_drop]; omega)]
  rw [getD_take _ _ _ _ (by omega), getD_drop]
  rw [getD_take _ _ _ _ (by omega), getD_drop]

/-- Row count of the crop. -/
theorem crop_rows_eq (g : Grid) :
    gridRows (crop_to_bbox g) =
      min (lastSuchThat (rowHasFg g) (gridRows g) -
        firstSuchThat (rowHasFg g) (gridRows g) + 1 + 1)
        (gridRows g - firstSuchThat (rowHasFg g) (gridRows g)) := by
  unfold crop_to_bbox gridRows
  rw [List.length_map, List.length_take, List.length_drop]

/-- Column count of the crop (for a rectangular grid with a row below the
bounding-box top). -/
theorem crop_cols_eq (g : Grid) (hrect : Rect g)
    (hne : firstSuchThat (rowHasFg g) (gridRows g) < gridRows g) :
    gridCols (crop_to_bbox g) =
      min (lastSuchThat (colHasFg g) (gridCols g) -
        firstSuchThat (colHasFg g) (gridCols g) + 1 + 1)
        (gridCols g - firstSuchThat (colHasFg g) (gridCols g)) := by
  have hrg : firstSuchThat (rowHasFg g) (gridRows g) < g.length := hne
  have hrow_len : (g.getD (firstSuchThat (rowHasFg g) (gridRows g)) []).length =
      gridCols g := by
    rw [List.getD_eq_getElem _ _ hrg]
    exact hrect _ (List.getElem_mem hrg)
  unfold gridRows at hrg
  unfold gridRows gridCols at hrow_len
  unfold crop_to_bbox gridCols gridRows
  dsimp only
  rw [headD_eq_getD]
  rw [getD_map_rows _ _ 0 (by rw [List.length_take, List.length_drop]; omega)]
  rw [getD_take _ _ _ _ (by omega), getD_drop]
  simp only [Nat.add_zero]
  rw [List.length_take, List.length_drop, hrow_len]

/-- C2, amended: the rasterizers' crop is tight at the low edges but may
keep one all-background border row and one all-background border column
at the high edges (the crop slice runs to `min + dim + 1` where `dim` is
already the tight extent): the crop's first row and first column contain
foreground, and foreground reaches to within one row of the bottom and
one column of the right edge. -/
theorem crop_to_bbox_nearly_tight (g : Grid) (hrect : Rect g)
    (hfg : ∃ r c, r < gridRows g ∧ c < gridCols g ∧ getCell g r c ≠ 0) :
    rowHasFg (crop_to_bbox g) 0 = true ∧
    colHasFg (crop_to_bbox g) 0 = true ∧
    (∃ r, rowHasFg (crop_to_bbox g) r = true ∧ gridRows (crop_to_bbox g) ≤ r + 2) ∧
    (∃ c, colHasFg (crop_to_bbox g) c = true ∧ gridCols (crop_to_bbox g) ≤ c + 2) := by
  obtain ⟨r0, c0, hr0, hc0, hcell0⟩ := hfg
  have hrowfg : rowHasFg g r0 = true := (rowHasFg_iff g r0).mpr ⟨c0, hc0, hcell0⟩
  have hcolfg : colHasFg g c0 = true := (colHasFg_iff g c0).mpr ⟨r0, hr0, hcell0⟩
  obtain ⟨hrmin_le, hrmin_p, hrmin_lt⟩ :=
    firstSuchThat_spec (rowHasFg g) (gridRows g) r0 hr0 hrowfg
  obtain ⟨hrmax_ge, hrmax_p, hrmax_lt⟩ :=
    lastSuchThat_spec (rowHasFg g) (gridRows g) r0 hr0 hrowfg
  obtain ⟨hcmin_le, hcmin_p, hcmin_lt⟩ :=
    firstSuchThat_spec (colHasFg g) (gridCols g) c0 hc0 hcolfg
  obtain ⟨hcmax_ge, hcmax_p, hcmax_lt⟩ :=
    lastSuchThat_spec (colHasFg g) (gridCols g) c0 hc0 hcolfg
  set rmin := firstSuchThat (rowHasFg g) (gridRows g) with hrmin_def
  set rmax := lastSuchThat (rowHasFg g) (gridRows g) with hrmax_def
  set cmin := firstSuchThat (colHasFg g) (gridCols g) with hcmin_def
  set cmax := lastSuchThat (colHasFg g) (gridCols g) with hcmax_def
  have hcols := crop_cols_eq g hrect hrmin_lt
  have hrows := crop_rows_eq g
  -- foreground witnesses inside the extreme rows and columns
  obtain ⟨ctop, hctop_lt, hctop⟩ := (rowHasFg_iff g rmin).mp hrmin_p
  obtain ⟨cbot, hcbot_lt, hcbot⟩ := (rowHasFg_iff g rmax).mp hrmax_p
  obtain ⟨rleft, hrleft_lt, hrleft⟩ := (colHasFg_iff g cmin).mp hcmin_p
  obtain ⟨rright, hrright_lt, hrright⟩ := (colHasFg_iff g cmax).mp hcmax_p
  have hctop_ge : cmin ≤ ctop :=
    (firstSuchThat_spec (colHasFg g) (gridCols g) ctop hctop_lt
      ((colHasFg_iff g ctop).mpr ⟨rmin, hrmin_lt, hctop⟩)).1
  have hctop_le : ctop ≤ cmax :=
    (lastSuchThat_spec (colHasFg g) (gridCols g) ctop hctop_lt
      ((colHasFg_iff g ctop).mpr ⟨rmin, hrmin_lt, hctop⟩)).1
  have hcbot_ge : cmin ≤ cbot :=
    (firstSuchThat_spec (colHasFg g) (gridCols g) cbot hcbot_lt
      ((colHasFg_iff g cbot).mpr ⟨rmax, hrmax_lt, hcbot⟩)).1
  have hcbot_le : cbot ≤ cmax :=
    (lastSuchThat_spec (colHasFg g) (gridCols g) cbot hcbot_lt
      ((colHasFg_iff g cbot).mpr ⟨rmax, hrmax_lt, hcbot⟩)).1
  have hrleft_ge : rmin ≤ rleft :=
    (firstSuchThat_spec (rowHasFg g) (gridRows g) rleft hrleft_lt
      ((rowHasFg_iff g rleft).mpr ⟨cmin, hcmin_lt, hrleft⟩)).1
  have hrleft_le : rleft ≤ rmax :=
    (lastSuchThat_spec (rowHasFg g) (gridRows g) rleft hrleft_lt
      ((rowHasFg_iff g rleft).mpr ⟨cmin, hcmin_lt, hrleft⟩)).1
  have hrright_ge : rmin ≤ rright :=
    (firstSuchThat_spec (rowHasFg g) (gridRows g) rright hrright_lt
      ((rowHasFg_iff g rright).mpr ⟨cmax, hcmax_lt, hrright⟩)).1
  have hrright_le : rright ≤ rmax :=
    (lastSuchThat_spec (rowHasFg g) (gridRows g) rright hrright_lt
      ((rowHasFg_iff g rright).mpr ⟨cmax, hcmax_lt, hrright⟩)).1
  refine ⟨?_, ?_, ?_, ?_⟩
  · refine (rowHasFg_iff _ 0).mpr ⟨ctop - cmin, ?_, ?_⟩
    · rw [hcols]
      omega
    · rw [getCell_crop g hrect 0 (ctop - cmin) (by omega) (by omega)
        (by omega) (by omega)]
      have : cmin + (ctop - cmin) = ctop := by omega
      rw [Nat.add_zero, this]
      exact hctop
  · refine (colHasFg_iff _ 0).mpr ⟨rleft - rmin, ?_, ?_⟩
    · rw [hrows]
      omega
    · rw [getCell_crop g hrect (rleft - rmin) 0 (by omega) (by omega)
        (by omega) (by omega)]
      have : rmin + (rleft - rmin) = rleft := by omega
      rw [Nat.add_zero, this]
      exact hrleft
  · refine ⟨rmax - rmin, (rowHasFg_iff _ _).mpr ⟨cbot - cmin, ?_, ?_⟩, ?_⟩
    · rw [hcols]
      omega
    · rw [getCell_crop g hrect (rmax - rmin) (cbot - cmin) (by omega) (by omega)
        (by omega) (by omega)]
      have h1 : rmin + (rmax - rmin) = rmax := by omega
      have h2 : cmin + (cbot - cmin) = cbot := by omega
      rw [h1, h2]
      exact hcbot
    · rw [hrows]
      omega
  · refine ⟨cmax - cmin, (colHasFg_iff _ _).mpr ⟨rright - rmin, ?_, ?_⟩, ?_⟩
    · rw [hrows]
      omega
    · rw [getCell_crop g hrect (rright - rmin) (cmax - cmin) (by omega) (by omega)
        (by omega) (by omega)]
      have h1 : rmin + (rright - rmin) = rright := by omega
      have h2 : cmin + (cmax - cmin) = cmax := by omega
      rw [h1, h2]
      exact hrright
    · rw [hcols]
      omega

/-- C2, witness for the amended theorem: the crop of the 1×1 foreground
grid has foreground in its first row. -/
theorem crop_to_bbox_nearly_tight_witness :
    rowHasFg (crop_to_bbox [[5]]) 0 = true :=
  (crop_to_bbox_nearly_tight [[5]]
    (fun row h => by rw [List.mem_singleton] at h; rw [h]; rfl)
    ⟨0, 0, by decide, by decide, by decide⟩).1

/-- C2, counterexample: `create_ellipse` with semi-axes `(2, 4)` and
rotation `0` produces a 4-row mask whose last row is entirely background
— the foreground bounding box does not equal the mask's full extent, so
the rasterized mask has an all-background border row. -/
theorem create_ellipse_not_tight :
    gridRows (create_ellipse 2 4) = 4 ∧
    rowHasFg (create_ellipse 2 4) 3 = false := by
  constructor
  · rfl
  · rfl

/-- Behaviour of the liquid rule at the extreme fill levels, for a
nonempty eroded cavity (shared by the C6 theorems). -/
theorem apply_liquid_levels_helper (data : Grid) (t : Nat) (ll : Int)
    (hne : cavityEmpty data t = false) :
    (∀ r c, erodedCell data t r c = true →
      apply_liquid_container_rule data t 1 ll r c = ll) ∧
    (∀ r c, erodedCell data t r c = true →
      apply_liquid_container_rule data t 0 ll r c =
        if cavityRmax data t - cavityRmin data t ≤ r then ll else -1) := by
  have hcav : ∃ k, k < gridRows data ∧ cavityRowHasFg data t k = true := by
    unfold cavityEmpty at hne
    cases hx : (List.range (gridRows data)).any (cavityRowHasFg data t) with
    | false =>
      rw [hx] at hne
      simp at hne
    | true =>
      rw [List.any_eq_true] at hx
      obtain ⟨k, hk, hany⟩ := hx
      exact ⟨k, List.mem_range.mp hk, hany⟩
  obtain ⟨k, hk, hkfg⟩ := hcav
  have hrmin := firstSuchThat_spec (cavityRowHasFg data t) (gridRows data) k hk hkfg
  have hrmax := lastSuchThat_spec (cavityRowHasFg data t) (gridRows data) k hk hkfg
  have hle : cavityRmin data t ≤ cavityRmax data t := le_trans hrmin.1 hrmax.1
  constructor
  · intro r c her
    unfold apply_liquid_container_rule
    rw [hne]
    simp only [Bool.false_eq_true, if_false, her, if_true]
    have hfill : (⌊(1 - (1 : ℚ)) * ((cavityRmax data t : ℚ) - cavityRmin data t)⌋).toNat = 0 := by
      norm_num
    rw [hfill]
    simp
  · intro r c her
    unfold apply_liquid_container_rule
    rw [hne]
    simp only [Bool.false_eq_true, if_false, her, if_true]
    have hfill : (⌊(1 - (0 : ℚ)) * ((cavityRmax data t : ℚ) - cavityRmin data t)⌋).toNat =
        cavityRmax data t - cavityRmin data t := by
      rw [← Nat.cast_sub hle]
      norm_num
    rw [hfill]

/-- C6, counterexample: on the diamond container with wall thickness 1,
the eroded cavity spans rows 1..5; at fill level `0.0` the fill line
`e_fill = rmax - rmin = 4` is applied in absolute raster rows, so cavity
cell `(4, 2)` — which lies above the cavity's bottom row 5 — still
receives the liquid label instead of the void marker.  The claim states
that at level 0.0 no cavity cell gets the liquid label up to one boundary
row of rounding; here both rows 4 and 5 of the cavity stay liquid. -/
theorem liquid_level_zero_leaves_liquid_rows :
    erodedCell diamond_container 1 4 2 = true ∧
    cavityRmax diamond_container 1 = 5 ∧
    apply_liquid_container_rule diamond_container 1 0 9 4 2 = 9 := by
  refine ⟨by decide, by decide, ?_⟩
  have h := (apply_liquid_levels_helper diamond_container 1 9 (by decide)).2 4 2 (by decide)
  rw [h]
  have h2 : cavityRmax diamond_container 1 - cavityRmin diamond_container 1 = 4 := by
    decide
  rw [h2]
  rfl

/-- C6, amended: for a nonempty eroded cavity, fill level `1.0` assigns
the liquid label to every cavity cell (exactly); fill level `0.0` assigns
the liquid label exactly to the cavity cells whose absolute row index is
at least `rmax - rmin` (the cavity height minus one) and the void marker
to the cavity cells above them — the fill line is measured in absolute
raster rows, not from the cavity's top, so when the cavity starts at row
`rmin > 0` its lowest `rmin + 1` rows remain liquid rather than only the
bottom boundary row. -/
theorem liquid_fill_levels (data : Grid) (t : Nat) (ll : Int)
    (hne : cavityEmpty data t = false) :
    (∀ r c, erodedCell data t r c = true →
      apply_liquid_container_rule data t 1 ll r c = ll) ∧
    (∀ r c, erodedCell data t r c = true →
      apply_liquid_container_rule data t 0 ll r c =
        if cavityRmax data t - cavityRmin data t ≤ r then ll else -1) :=
  apply_liquid_levels_helper data t ll hne

/-- C6, witness for the amended theorem: at level 1.0 the diamond
container's cavity cell `(3, 3)` receives the liquid label. -/
theorem liquid_fill_levels_witness :
    apply_liquid_container_rule diamond_container 1 1 9 3 3 = 9 :=
  (liquid_fill_levels diamond_container 1 9 (by decide)).1 3 3 (by decide)

/-- On a canvas whose boundary-masked content is empty, the overlap flag
is never set. -/
theorem overlap_flag_empty (bag bnd mask : Grid)
    (h : ∀ r c, bag_cell bag bnd r c = 0) (p0 p1 : Int) :
    overlap_flag bag bnd mask p0 p1 = false := by
  unfold overlap_flag obj_int_grid
  dsimp only
  rw [List.any_eq_false]
  intro row hrow
  rw [List.mem_map] at hrow
  obtain ⟨r, _, rfl⟩ := hrow
  intro hcontra
  rw [List.any_eq_true] at hcontra
  obtain ⟨v, hv, hvv⟩ := hcontra
  rw [List.mem_map] at hv
  obtain ⟨c, _, rfl⟩ := hv
  rw [h] at hvv
  simp at hvv

/-- On an empty canvas a non-sheet gravity step that does not reach the
floor just descends by `z_inc`. -/
theorem grav_body_empty_no_ground (env : GravEnv) (st : GravState)
    (hS : st.obj.shape_S = false)
    (hempty : ∀ r c, bag_cell env.bag env.bnd r c = 0)
    (hg : ¬ env.ground_y ≤ st.obj.pose0 + env.z_inc + st.obj.dim0) :
    grav_body env st =
      ({ st with obj := { st.obj with pose0 := st.obj.pose0 + env.z_inc } }, false) := by
  unfold grav_body
  dsimp only
  rw [hS]
  simp only [Bool.false_eq_true, if_false]
  rw [if_neg hg]
  rw [overlap_flag_empty env.bag env.bnd st.obj.data hempty]
  simp

/-- On an empty canvas a non-sheet gravity step that crosses the floor
clamps the pose exactly to the floor and stops the descent. -/
theorem grav_body_empty_ground (env : GravEnv) (st : GravState)
    (hS : st.obj.shape_S = false)
    (hempty : ∀ r c, bag_cell env.bag env.bnd r c = 0)
    (hg : env.ground_y ≤ st.obj.pose0 + env.z_inc + st.obj.dim0) :
    grav_body env st =
      ({ st with obj := { st.obj with pose0 := env.ground_y - st.obj.dim0 } }, true) := by
  unfold grav_body
  dsimp only
  rw [hS]
  simp only [Bool.false_eq_true, if_false]
  rw [if_pos hg]
  rw [overlap_flag_empty env.bag env.bnd st.obj.data hempty]
  simp only [Bool.false_eq_true, if_false]
  have harith : st.obj.pose0 + env.z_inc -
      (st.obj.pose0 + env.z_inc + st.obj.dim0 - env.ground_y) =
      env.ground_y - st.obj.dim0 := by ring
  rw [harith]

/-- On an empty canvas the gravity descent of a non-sheet object that can
reach the floor within its fuel budget ends exactly clamped to the floor,
with the bounding dimension untouched. -/
theorem grav_loop_empty_clamps (env : GravEnv)
    (hempty : ∀ r c, bag_cell env.bag env.bnd r c = 0) :
    ∀ (fuel : Nat) (st : GravState), st.obj.shape_S = false →
      1 ≤ fuel →
      env.ground_y ≤ st.obj.pose0 + st.obj.dim0 + (fuel : Int) * env.z_inc →
      (grav_loop env st fuel).1.obj.pose0 = env.ground_y - st.obj.dim0 ∧
      (grav_loop env st fuel).1.obj.dim0 = st.obj.dim0 := by
  intro fuel
  induction fuel with
  | zero =>
    intro st _ h1 _
    exact absurd h1 (by omega)
  | succ n ih =>
    intro st hS _ hreach
    by_cases hg : env.ground_y ≤ st.obj.pose0 + env.z_inc + st.obj.dim0
    · unfold grav_loop
      rw [grav_body_empty_ground env st hS hempty hg]
      simp
    · have hn1 : 1 ≤ n := by
        rcases Nat.eq_zero_or_pos n with h0 | h1
        · exfalso
          rw [h0] at hreach
          push_cast at hreach
          apply hg
          linarith
        · exact h1
      have hreach2 : env.ground_y ≤ (st.obj.pose0 + env.z_inc) + st.obj.dim0 +
          (n : Int) * env.z_inc := by
        push_cast at hreach
        linarith
      unfold grav_loop
      rw [grav_body_empty_no_ground env st hS hempty hg]
      simp only [Bool.false_eq_true, if_false]
      exact ih _ hS hn1 hreach2

/-- When the object's box ends exactly on the floor and starts strictly
below the container top, the boundary adjustment leaves
`pose0 + dim0` unchanged (the x-axis upper trim subtracts zero; the
y-axis trims only touch `pose1`, `dim1` and the raster). -/
theorem adjust_keeps_floor_clamp (env : GravEnv) (o : GravObj)
    (hmask : env.extents = none)
    (hsum : o.pose0 + o.dim0 = env.ground_y)
    (hlow : ((env.size / 2 : Nat) : Int) - (env.bb_h : Int) < o.pose0) :
    (adjust_for_boundaries env o).pose0 + (adjust_for_boundaries env o).dim0 =
      env.ground_y := by
  have hground : env.ground_y = ((env.size / 2 : Nat) : Int) + (env.bb_h : Int) := by
    unfold GravEnv.ground_y
    rw [hmask]
    push_cast
    ring
  have hcond : ((env.size / 2 : Nat) : Int) + (env.bb_h : Int) ≤ o.pose0 + o.dim0 := by
    rw [hsum, hground]
  unfold adjust_for_boundaries
  rw [hmask]
  dsimp only
  rw [if_neg (not_le.mpr hlow), if_pos hcond]
  dsimp only
  rw [hground]
  split
  · split <;> (dsimp only; omega)
  · split <;> (dsimp only; omega)

/-- C5: a non-sheet object dropped by the gravity rule into an empty
container (no boundary-masked canvas content to collide with, default
container geometry) comes to rest exactly on the floor: on the floor
crossing the pose is clamped so that `pose[0] + dim[0] = ground_y`, the
subsequent boundary adjustment leaves the clamped pose and the bounding
dimension unchanged, and the object's lowest occupied row is adjacent to
— never past — the floor boundary row. -/
theorem gravity_rests_on_floor (env : GravEnv) (obj : GravObj)
    (hmask : env.extents = none)
    (hS : obj.shape_S = false)
    (hempty : ∀ r c, bag_cell env.bag env.bnd r c = 0)
    (hreach : env.ground_y ≤ obj.pose0 + obj.dim0 + 50 * env.z_inc)
    (hdim2 : obj.dim0 < 2 * (env.bb_h : Int)) :
    (run_shape_grammar_overlap_and_gravity env obj).1.pose0 +
      (run_shape_grammar_overlap_and_gravity env obj).1.dim0 = env.ground_y := by
  obtain ⟨hp, hd⟩ := grav_loop_empty_clamps env hempty 50 ⟨obj, 0, false⟩ hS
    (by omega) (by push_cast; linarith)
  have hground : env.ground_y = ((env.size / 2 : Nat) : Int) + (env.bb_h : Int) := by
    unfold GravEnv.ground_y
    rw [hmask]
    push_cast
    ring
  unfold run_shape_grammar_overlap_and_gravity
  dsimp only
  apply adjust_keeps_floor_clamp env _ hmask
  · rw [hp, hd]
    ring
  · rw [hp]
    rw [hground]
    have hd0 : (⟨obj, 0, false⟩ : GravState).obj.dim0 = obj.dim0 := rfl
    rw [hd0]
    omega

/-- C5, witness: a 2×2 box dropped into an empty 12×12 container with
`bb_h = 4` (floor row `10`) rests with `pose0 + dim0 = 10`. -/
theorem gravity_rests_on_floor_witness :
    (run_shape_grammar_overlap_and_gravity ⟨[], [], 12, 4, none, 50⟩
      ⟨false, 3, 3, 2, 2, [[7, 7], [7, 7]], (0, 0), (0, 0), 0, 7⟩).1.pose0 +
    (run_shape_grammar_overlap_and_gravity ⟨[], [], 12, 4, none, 50⟩
      ⟨false, 3, 3, 2, 2, [[7, 7], [7, 7]], (0, 0), (0, 0), 0, 7⟩).1.dim0 =
    GravEnv.ground_y ⟨[], [], 12, 4, none, 50⟩ :=
  gravity_rests_on_floor ⟨[], [], 12, 4, none, 50⟩
    ⟨false, 3, 3, 2, 2, [[7, 7], [7, 7]], (0, 0), (0, 0), 0, 7⟩
    rfl rfl (fun _ _ => rfl) (by decide) (by decide)

/-- C3: evaluation of the overlap-resolution loop at a concrete failing
input.  Starting the 2×2 object at pose `(0, 0)` on the `c3_env` canvas,
the loop runs three iterations whose poses — the values a value-semantics
`pose_list` would record — are pairwise distinct (`Nodup`): the pose
never returns to a prior value, let alone for two consecutive iterations.
Yet `LATERAL_OSC_FLAG` is set, because every entry of the source's
`pose_list` aliases the mutable `bag_obj.pose` array, making the
oscillation comparison `pose == pose_list[-2]` vacuously true once
`ol_ctr >= 2`. -/
theorem lateral_osc_fires_without_revisit :
    (run_shape_grammar_overlap c3_env 0 0 true true).1.latOsc = true ∧
    (run_shape_grammar_overlap c3_env 0 0 true true).1.hist =
      [(0, 0), (1, 0), (0, 1), (1, 2)] ∧
    ((run_shape_grammar_overlap c3_env 0 0 true true).1.hist).Nodup := by
  refine ⟨?_, ?_, ?_⟩ <;> decide

/-- Positional comparison: a lower digit cannot compensate a strictly
smaller leading part. -/
theorem digit_lt (B x1 y1 x2 y2 : Nat) (hy1 : y1 < B)
    (h : x1 < x2 ∨ (x1 = x2 ∧ y1 < y2)) :
    x1 * B + y1 < x2 * B + y2 := by
  rcases h with h | ⟨rfl, h⟩
  · calc x1 * B + y1 < x1 * B + B := by omega
      _ = (x1 + 1) * B := by ring
      _ ≤ x2 * B := Nat.mul_le_mul_right B h
      _ ≤ x2 * B + y2 := Nat.le_add_right _ _
  · omega

/-- The base-`B` encoding of the four-component measure is faithful to
lexicographic comparison when the low components stay below the radix. -/
theorem lex4_lt (B a1 f1 s1 d1 a2 f2 s2 d2 : Nat)
    (hf1 : f1 < 3) (hs1 : s1 < B) (hd1 : d1 < B)
    (hlex : a1 < a2 ∨ (a1 = a2 ∧ (f1 < f2 ∨ (f1 = f2 ∧
      (s1 < s2 ∨ (s1 = s2 ∧ d1 < d2)))))) :
    ((a1 * 3 + f1) * B + s1) * B + d1 < ((a2 * 3 + f2) * B + s2) * B + d2 := by
  apply digit_lt _ _ _ _ _ hd1
  rcases hlex with h | ⟨rfl, h⟩
  · exact Or.inl (digit_lt _ _ _ _ _ hs1 (Or.inl (by omega)))
  rcases h with h | ⟨rfl, h⟩
  · exact Or.inl (digit_lt _ _ _ _ _ hs1 (Or.inl (by omega)))
  rcases h with h | ⟨rfl, h⟩
  · exact Or.inl (digit_lt _ _ _ _ _ hs1 (Or.inr ⟨rfl, h⟩))
  · exact Or.inr ⟨rfl, h⟩

/-- Specification of the keep-first-minimum fold behind
`nearest_free_row`: any produced row comes from the list (or the seed)
and minimizes the distance to `q` over both. -/
theorem nf_fold_spec (q : Nat) : ∀ (l : List Nat) (acc : Option Nat) (m : Nat),
    l.foldl (fun acc r =>
      match acc with
      | none => some r
      | some b => if natDist r q < natDist b q then some r else acc) acc = some m →
    (m ∈ l ∨ acc = some m) ∧
    (∀ x ∈ l, natDist m q ≤ natDist x q) ∧
    (∀ b, acc = some b → natDist m q ≤ natDist b q) := by
  intro l
  induction l with
  | nil =>
    intro acc m h
    rw [List.foldl_nil] at h
    refine ⟨Or.inr h, by simp, fun b hb => ?_⟩
    rw [h] at hb
    cases hb
    exact le_refl _
  | cons r t ih =>
    intro acc m h
    rw [List.foldl_cons] at h
    obtain ⟨hmem, hmin, hacc⟩ := ih _ m h
    have hstep : ∀ b, (match acc with
        | none => some r
        | some b => if natDist r q < natDist b q then some r else acc) = some b →
        (b = r ∨ acc = some b) ∧ natDist b q ≤ natDist r q := by
      intro b hb
      cases acc with
      | none =>
        simp only [Option.some.injEq] at hb
        exact ⟨Or.inl hb.symm, by rw [hb]⟩
      | some a =>
        simp only at hb
        by_cases hlt : natDist r q < natDist a q
        · rw [if_pos hlt, Option.some.injEq] at hb
          exact ⟨Or.inl hb.symm, by rw [hb]⟩
        · rw [if_neg hlt, Option.some.injEq] at hb
          exact ⟨Or.inr (by rw [hb]), by rw [← hb]; omega⟩
    refine ⟨?_, ?_, ?_⟩
    · rcases hmem with h1 | h1
      · exact Or.inl (List.mem_cons_of_mem _ h1)
      · rcases (hstep m h1).1 with h2 | h2
        · exact Or.inl (h2 ▸ List.mem_cons_self r t)
        · exact Or.inr h2
    · intro x hx
      rcases List.mem_cons.mp hx with h1 | hx
      · rw [h1]
        cases hval : (match acc with
          | none => some r
          | some b => if natDist r q < natDist b q then some r else acc) with
        | none =>
          exfalso
          cases acc with
          | none => exact Option.noConfusion hval
          | some a =>
            simp only at hval
            by_cases hlt : natDist r q < natDist a q
            · rw [if_pos hlt] at hval; exact Option.noConfusion hval
            · rw [if_neg hlt] at hval; exact Option.noConfusion hval
        | some b =>
          exact le_trans (hacc b hval) (hstep b hval).2
      · exact hmin x hx
    · intro b hb
      cases acc with
      | none => exact Option.noConfusion hb
      | some a =>
        cases hb
        by_cases hlt : natDist r q < natDist b q
        · have := hacc r (by simp only [if_pos hlt]); omega
        · have := hacc b (by simp only [if_neg hlt]); omega

/-- A row produced by `nearest_free_row` is a free in-canvas row of the
column and minimizes the distance to the query over all such rows. -/
theorem nearest_free_row_spec (bag : Grid) (col q m : Nat)
    (h : nearest_free_row bag col q = some m) :
    (m < gridRows bag ∧ getCell bag m col = 0) ∧
    (∀ x, x < gridRows bag → getCell bag x col = 0 →
      natDist m q ≤ natDist x q) := by
  unfold nearest_free_row at h
  obtain ⟨hmem, hmin, -⟩ := nf_fold_spec q _ _ _ h
  rcases hmem with hmem | hmem
  swap
  · exact Option.noConfusion hmem
  unfold free_rows at hmem
  rw [List.mem_filter, List.mem_range] at hmem
  refine ⟨⟨hmem.1, by simpa using hmem.2⟩, fun x hx hfree => ?_⟩
  apply hmin
  unfold free_rows
  rw [List.mem_filter, List.mem_range]
  exact ⟨hx, by simpa using hfree⟩

/-- The phase component of the measure is bounded by its radix slot. -/
theorem flagOf_lt_three (bag : Grid) (pp : Pt × Pt) : flagOf bag pp < 3 := by
  unfold flagOf
  split
  · omega
  split
  · omega
  · omega

/-- Lexicographic decrease of the tuple implies decrease of the encoded
measure, provided the low components of the smaller side fit the radix. -/
theorem mu_lt_of_lex (bag : Grid) (pp qq : Pt × Pt)
    (hs1 : natDist pp.1.1 pp.2.1 < gridRows bag + 2)
    (hd1 : natDist pp.2.1 (midRow pp) < gridRows bag + 2)
    (hlex : natDist pp.1.2 pp.2.2 < natDist qq.1.2 qq.2.2 ∨
      (natDist pp.1.2 pp.2.2 = natDist qq.1.2 qq.2.2 ∧
        (flagOf bag pp < flagOf bag qq ∨ (flagOf bag pp = flagOf bag qq ∧
          (natDist pp.1.1 pp.2.1 < natDist qq.1.1 qq.2.1 ∨
            (natDist pp.1.1 pp.2.1 = natDist qq.1.1 qq.2.1 ∧
              natDist pp.2.1 (midRow pp) < natDist qq.2.1 (midRow qq))))))) :
    mu bag pp < mu bag qq := by
  unfold mu
  exact lex4_lt _ _ _ _ _ _ _ _ _ (flagOf_lt_three bag pp) hs1 hd1 hlex

/-- Arithmetic core of the phase-1 step: when the relocated row is at
least as close to the floor midpoint as the old second endpoint and
differs from it, the row span of the first child shrinks, except on the
single mirror plateau where the child's midpoint distance drops. -/
theorem mid_chain_step (r1 r2 mr : Nat)
    (hmin : natDist mr ((r1 + r2) / 2) ≤ natDist r2 ((r1 + r2) / 2))
    (hne : mr ≠ r2) :
    natDist r1 mr < natDist r1 r2 ∨
    (natDist r1 mr = natDist r1 r2 ∧
      natDist mr ((r1 + mr) / 2) < natDist r2 ((r1 + r2) / 2)) := by
  unfold natDist at *
  omega

/-- Arithmetic core of the phase-0 step: a row at least as close to the
floor midpoint as both endpoints, and equal to neither, lies strictly
between them, so both children's row spans shrink. -/
theorem mid_between_step (r1 r2 mr : Nat)
    (h1 : natDist mr ((r1 + r2) / 2) ≤ natDist r1 ((r1 + r2) / 2))
    (h2 : natDist mr ((r1 + r2) / 2) ≤ natDist r2 ((r1 + r2) / 2))
    (hne1 : mr ≠ r1) (hne2 : mr ≠ r2) :
    natDist r1 mr < natDist r1 r2 ∧ natDist r2 mr < natDist r1 r2 := by
  unfold natDist at *
  omega

/-- Both recursive children of a split step stay in canvas and strictly
decrease the measure `mu`: the column span halves while it is at least 2;
once the endpoints are within one column, the relocated midpoint is a
free cell of the common relocation column, driving the phase down and
then the row span (with the single mirror plateau compensated by the
midpoint-distance component). -/
theorem mu_child_lt (bag : Grid) (r1 c1 r2 c2 mr : Nat)
    (hr1 : r1 < gridRows bag) (hc1 : c1 < gridCols bag)
    (hr2 : r2 < gridRows bag) (hc2 : c2 < gridCols bag)
    (hnf : nearest_free_row bag ((c1 + c2) / 2) ((r1 + r2) / 2) = some mr)
    (hne1 : ((mr, (c1 + c2) / 2) : Pt) ≠ (r1, c1))
    (hne2 : ((mr, (c1 + c2) / 2) : Pt) ≠ (r2, c2)) :
    (mr < gridRows bag ∧ (c1 + c2) / 2 < gridCols bag) ∧
    mu bag ((r1, c1), (mr, (c1 + c2) / 2)) < mu bag ((r1, c1), (r2, c2)) ∧
    mu bag ((r2, c2), (mr, (c1 + c2) / 2)) < mu bag ((r1, c1), (r2, c2)) := by
  obtain ⟨⟨hmrH, hmrFree⟩, hmin⟩ := nearest_free_row_spec bag _ _ _ hnf
  have hmcW : (c1 + c2) / 2 < gridCols bag := by omega
  have hs1b : natDist r1 mr < gridRows bag + 2 := by unfold natDist; omega
  have hs2b : natDist r2 mr < gridRows bag + 2 := by unfold natDist; omega
  have hd1b : natDist mr ((r1 + mr) / 2) < gridRows bag + 2 := by
    unfold natDist; omega
  have hd2b : natDist mr ((r2 + mr) / 2) < gridRows bag + 2 := by
    unfold natDist; omega
  have hmain : mu bag ((r1, c1), (mr, (c1 + c2) / 2)) < mu bag ((r1, c1), (r2, c2)) ∧
      mu bag ((r2, c2), (mr, (c1 + c2) / 2)) < mu bag ((r1, c1), (r2, c2)) := by
    rcases Nat.lt_or_ge (natDist c1 c2) 2 with hnear | hfar
    · -- columns within one of each other
      have hΔ : c1 ≤ c2 + 1 ∧ c2 ≤ c1 + 1 := by unfold natDist at hnear; omega
      by_cases h0 : getCell bag r1 c1 = 0 ∧ getCell bag r2 c2 = 0 ∧ c1 = c2
      · -- parent phase 0: both endpoints free in the common column
        obtain ⟨hf1, hf2, hcc⟩ := h0
        have hmc : (c1 + c2) / 2 = c2 := by omega
        have hner1 : mr ≠ r1 := by
          intro h; apply hne1; rw [h, hmc, ← hcc]
        have hner2 : mr ≠ r2 := by
          intro h; apply hne2; rw [h, hmc]
        have hf1c : getCell bag r1 ((c1 + c2) / 2) = 0 := by
          rw [hmc, ← hcc]; exact hf1
        have hf2c : getCell bag r2 ((c1 + c2) / 2) = 0 := by
          rw [hmc]; exact hf2
        obtain ⟨hA, hB⟩ := mid_between_step r1 r2 mr
          (hmin r1 hr1 hf1c) (hmin r2 hr2 hf2c) hner1 hner2
        have hflagP : flagOf bag ((r1, c1), (r2, c2)) = 0 := by
          unfold flagOf relocCol
          dsimp only
          rw [if_pos ⟨hf1, hf2, hcc⟩]
        have hflagA : flagOf bag ((r1, c1), (mr, (c1 + c2) / 2)) = 0 := by
          unfold flagOf relocCol
          dsimp only
          rw [if_pos ⟨hf1, hmrFree, by omega⟩]
        have hflagB : flagOf bag ((r2, c2), (mr, (c1 + c2) / 2)) = 0 := by
          unfold flagOf relocCol
          dsimp only
          rw [if_pos ⟨hf2, hmrFree, by omega⟩]
        constructor
        · refine mu_lt_of_lex bag _ _ hs1b hd1b (Or.inr ⟨?_, Or.inr ⟨?_, Or.inl hA⟩⟩)
          · show natDist c1 ((c1 + c2) / 2) = natDist c1 c2
            unfold natDist; omega
          · rw [hflagA, hflagP]
        · refine mu_lt_of_lex bag _ _ hs2b hd2b (Or.inr ⟨?_, Or.inr ⟨?_, Or.inl hB⟩⟩)
          · show natDist c2 ((c1 + c2) / 2) = natDist c1 c2
            unfold natDist; omega
          · rw [hflagB, hflagP]
      · by_cases h1 : getCell bag r2 c2 = 0 ∧ c2 = (c1 + c2) / 2
        · -- parent phase 1: second endpoint free in the relocation column
          obtain ⟨hf2, hcc2⟩ := h1
          have hmc : (c1 + c2) / 2 = c2 := hcc2.symm
          have hner2 : mr ≠ r2 := by
            intro h; apply hne2; rw [h, hmc]
          have hf2c : getCell bag r2 ((c1 + c2) / 2) = 0 := by
            rw [hmc]; exact hf2
          have hchain := mid_chain_step r1 r2 mr (hmin r2 hr2 hf2c) hner2
          have hflagP : flagOf bag ((r1, c1), (r2, c2)) = 1 := by
            unfold flagOf relocCol
            dsimp only
            rw [if_neg h0, if_pos ⟨hf2, hcc2⟩]
          have hflagA : flagOf bag ((r1, c1), (mr, (c1 + c2) / 2)) ≤ 1 := by
            unfold flagOf relocCol
            dsimp only
            split
            · omega
            · rw [if_pos ⟨hmrFree, by omega⟩]
          have hflagB : flagOf bag ((r2, c2), (mr, (c1 + c2) / 2)) = 0 := by
            unfold flagOf relocCol
            dsimp only
            rw [if_pos ⟨hf2, hmrFree, hcc2⟩]
          constructor
          · refine mu_lt_of_lex bag _ _ hs1b hd1b (Or.inr ⟨?_, ?_⟩)
            · show natDist c1 ((c1 + c2) / 2) = natDist c1 c2
              unfold natDist; omega
            · rcases Nat.lt_or_ge (flagOf bag ((r1, c1), (mr, (c1 + c2) / 2))) 1
                with hlt | hge
              · refine Or.inl ?_
                rw [hflagP]
                exact hlt
              · refine Or.inr ⟨?_, hchain⟩
                rw [hflagP]
                omega
          · refine mu_lt_of_lex bag _ _ hs2b hd2b ?_
            by_cases hc12 : c1 = c2
            · refine Or.inr ⟨?_, Or.inl ?_⟩
              · show natDist c2 ((c1 + c2) / 2) = natDist c1 c2
                unfold natDist; omega
              · rw [hflagB, hflagP]
                omega
            · refine Or.inl ?_
              show natDist c2 ((c1 + c2) / 2) < natDist c1 c2
              unfold natDist; omega
        · -- parent phase 2
          have hflagP : flagOf bag ((r1, c1), (r2, c2)) = 2 := by
            unfold flagOf relocCol
            dsimp only
            rw [if_neg h0, if_neg h1]
          have hflagA : flagOf bag ((r1, c1), (mr, (c1 + c2) / 2)) ≤ 1 := by
            unfold flagOf relocCol
            dsimp only
            split
            · omega
            · rw [if_pos ⟨hmrFree, by omega⟩]
          have hflagB : flagOf bag ((r2, c2), (mr, (c1 + c2) / 2)) ≤ 1 := by
            unfold flagOf relocCol
            dsimp only
            split
            · omega
            · rw [if_pos ⟨hmrFree, by omega⟩]
          constructor
          · refine mu_lt_of_lex bag _ _ hs1b hd1b ?_
            have hle : natDist c1 ((c1 + c2) / 2) ≤ natDist c1 c2 := by
              unfold natDist; omega
            rcases lt_or_eq_of_le hle with h | h
            · exact Or.inl h
            · refine Or.inr ⟨h, Or.inl ?_⟩
              rw [hflagP]
              omega
          · refine mu_lt_of_lex bag _ _ hs2b hd2b ?_
            have hle : natDist c2 ((c1 + c2) / 2) ≤ natDist c1 c2 := by
              unfold natDist; omega
            rcases lt_or_eq_of_le hle with h | h
            · exact Or.inl h
            · refine Or.inr ⟨h, Or.inl ?_⟩
              rw [hflagP]
              omega
    · -- column span at least 2: both children halve it
      unfold natDist at hfar
      constructor
      · refine mu_lt_of_lex bag _ _ hs1b hd1b (Or.inl ?_)
        show natDist c1 ((c1 + c2) / 2) < natDist c1 c2
        unfold natDist; omega
      · refine mu_lt_of_lex bag _ _ hs2b hd2b (Or.inl ?_)
        show natDist c2 ((c1 + c2) / 2) < natDist c1 c2
        unfold natDist; omega
  exact ⟨⟨hmrH, hmcW⟩, hmain⟩

/-- Unfolding equation of the midpoint recursion at positive fuel. -/
theorem run_midpoint_recursion_succ (bag : Grid) (fuel : Nat) (pts : Pt × Pt) :
    run_midpoint_recursion bag (fuel + 1) pts =
      if seg_overlap bag pts.1 pts.2 then
        match nearest_free_row bag ((pts.1.2 + pts.2.2) / 2)
            ((pts.1.1 + pts.2.1) / 2) with
        | none => some (Except.error ())
        | some mr =>
          if ((mr, (pts.1.2 + pts.2.2) / 2) : Pt) = pts.1 ∨
              ((mr, (pts.1.2 + pts.2.2) / 2) : Pt) = pts.2 then
            some (Except.ok [pts])
          else
            match run_midpoint_recursion bag fuel
                (pts.1, (mr, (pts.1.2 + pts.2.2) / 2)) with
            | none => none
            | some (Except.error e) => some (Except.error e)
            | some (Except.ok l1) =>
              match run_midpoint_recursion bag fuel
                  (pts.2, (mr, (pts.1.2 + pts.2.2) / 2)) with
              | none => none
              | some (Except.error e) => some (Except.error e)
              | some (Except.ok l2) => some (Except.ok (l1 ++ l2))
      else some (Except.ok [pts]) := rfl

/-- Radix-encoding bound: the measure of any in-canvas pair fits under
the fuel budget. -/
theorem fuel_bound_aux (W B a f s d : Nat) (ha : a ≤ W) (hf : f < 3)
    (hs : s < B) (hd : d < B) :
    ((a * 3 + f) * B + s) * B + d < 3 * (W + 1) * B * B + 1 := by
  have h1 : a * 3 + f + 1 ≤ 3 * (W + 1) := by omega
  have h2 : (a * 3 + f) * B + s + 1 ≤ 3 * (W + 1) * B := by
    calc (a * 3 + f) * B + s + 1 ≤ (a * 3 + f) * B + B := by omega
      _ = (a * 3 + f + 1) * B := by ring
      _ ≤ 3 * (W + 1) * B := Nat.mul_le_mul_right _ h1
  calc ((a * 3 + f) * B + s) * B + d < ((a * 3 + f) * B + s) * B + B := by omega
    _ = ((a * 3 + f) * B + s + 1) * B := by ring
    _ ≤ 3 * (W + 1) * B * B := Nat.mul_le_mul_right _ h2
    _ < 3 * (W + 1) * B * B + 1 := by omega

/-- The measure of any in-canvas pair is below `midpoint_fuel`. -/
theorem mu_lt_fuel (bag : Grid) (pts : Pt × Pt) (hb : InB bag pts) :
    mu bag pts < midpoint_fuel bag := by
  unfold InB at hb
  obtain ⟨h1, h2, h3, h4⟩ := hb
  unfold mu midpoint_fuel
  refine fuel_bound_aux _ _ _ _ _ _ ?_ (flagOf_lt_three bag pts) ?_ ?_
  · unfold natDist; omega
  · unfold natDist; omega
  · unfold natDist midRow; omega

/-- Fuel dominance: more fuel than the measure means the recursion never
runs out (it returns a result, possibly the empty-column error). -/
theorem midpoint_rec_dominated (bag : Grid) :
    ∀ (n : Nat) (pts : Pt × Pt), InB bag pts → mu bag pts < n →
      run_midpoint_recursion bag n pts ≠ none := by
  intro n
  induction n with
  | zero =>
    intro pts _ h
    exact absurd h (Nat.not_lt_zero _)
  | succ n ih =>
    intro pts hb hmu
    obtain ⟨⟨r1, c1⟩, r2, c2⟩ := pts
    unfold InB at hb
    dsimp only at hb
    obtain ⟨hb1, hb2, hb3, hb4⟩ := hb
    rw [run_midpoint_recursion_succ]
    dsimp only
    by_cases hov : seg_overlap bag (r1, c1) (r2, c2) = true
    · rw [if_pos hov]
      cases hnf : nearest_free_row bag ((c1 + c2) / 2) ((r1 + r2) / 2) with
      | none => simp
      | some mr =>
        dsimp only
        by_cases hmid : ((mr, (c1 + c2) / 2) : Pt) = (r1, c1) ∨
            ((mr, (c1 + c2) / 2) : Pt) = (r2, c2)
        · rw [if_pos hmid]
          simp
        · rw [if_neg hmid]
          push_neg at hmid
          obtain ⟨hne1, hne2⟩ := hmid
          obtain ⟨⟨hmrH, hmcW⟩, hlt1, hlt2⟩ :=
            mu_child_lt bag r1 c1 r2 c2 mr hb1 hb2 hb3 hb4 hnf hne1 hne2
          cases hc1 : run_midpoint_recursion bag n ((r1, c1), (mr, (c1 + c2) / 2)) with
          | none =>
            exact absurd hc1 (ih _ ⟨hb1, hb2, hmrH, hmcW⟩ (by omega))
          | some res1 =>
            cases res1 with
            | error e => simp
            | ok l1 =>
              cases hc2 : run_midpoint_recursion bag n
                  ((r2, c2), (mr, (c1 + c2) / 2)) with
              | none =>
                exact absurd hc2 (ih _ ⟨hb3, hb4, hmrH, hmcW⟩ (by omega))
              | some res2 => cases res2 <;> simp
    · rw [if_neg hov]
      simp

/-- A successful midpoint recursion never returns an empty segment list. -/
theorem midpoint_rec_ok_ne_nil (bag : Grid) :
    ∀ (fuel : Nat) (pts : Pt × Pt) (l : List (Pt × Pt)),
      run_midpoint_recursion bag fuel pts = some (Except.ok l) → l ≠ [] := by
  intro fuel
  induction fuel with
  | zero =>
    intro pts l h
    exact Option.noConfusion h
  | succ n ih =>
    intro pts l h
    rw [run_midpoint_recursion_succ] at h
    by_cases hov : seg_overlap bag pts.1 pts.2 = true
    · rw [if_pos hov] at h
      cases hnf : nearest_free_row bag ((pts.1.2 + pts.2.2) / 2)
          ((pts.1.1 + pts.2.1) / 2) with
      | none =>
        rw [hnf] at h
        simp at h
      | some mr =>
        rw [hnf] at h
        dsimp only at h
        by_cases hmid : ((mr, (pts.1.2 + pts.2.2) / 2) : Pt) = pts.1 ∨
            ((mr, (pts.1.2 + pts.2.2) / 2) : Pt) = pts.2
        · rw [if_pos hmid] at h
          simp only [Option.some.injEq, Except.ok.injEq] at h
          rw [← h]
          simp
        · rw [if_neg hmid] at h
          cases hc1 : run_midpoint_recursion bag n
              (pts.1, (mr, (pts.1.2 + pts.2.2) / 2)) with
          | none =>
            rw [hc1] at h
            exact Option.noConfusion h
          | some res1 =>
            rw [hc1] at h
            cases res1 with
            | error e => simp at h
            | ok l1 =>
              cases hc2 : run_midpoint_recursion bag n
                  (pts.2, (mr, (pts.1.2 + pts.2.2) / 2)) with
              | none =>
                rw [hc2] at h
                exact Option.noConfusion h
              | some res2 =>
                rw [hc2] at h
                cases res2 with
                | error e => simp at h
                | ok l2 =>
                  simp only [Option.some.injEq, Except.ok.injEq] at h
                  rw [← h]
                  intro hnil
                  rw [List.append_eq_nil] at hnil
                  exact ih _ _ hc1 hnil.1
    · rw [if_neg hov] at h
      simp only [Option.some.injEq, Except.ok.injEq] at h
      rw [← h]
      simp

/-- With dominating fuel, the recursion returns its argument unsplit
exactly when the segment has no overlap or the relocated midpoint hits
an endpoint. -/
theorem midpoint_rec_unsplit_iff (bag : Grid) (pts : Pt × Pt) (hb : InB bag pts) :
    run_midpoint_recursion bag (midpoint_fuel bag) pts = some (Except.ok [pts]) ↔
      (seg_overlap bag pts.1 pts.2 = false ∨
       ∃ mr, nearest_free_row bag ((pts.1.2 + pts.2.2) / 2)
           ((pts.1.1 + pts.2.1) / 2) = some mr ∧
         (((mr, (pts.1.2 + pts.2.2) / 2) : Pt) = pts.1 ∨
          ((mr, (pts.1.2 + pts.2.2) / 2) : Pt) = pts.2)) := by
  have hpos : 0 < midpoint_fuel bag := by unfold midpoint_fuel; omega
  obtain ⟨n, hn⟩ : ∃ n, midpoint_fuel bag = n + 1 :=
    ⟨midpoint_fuel bag - 1, by omega⟩
  have hmun : mu bag pts < n + 1 := by
    have := mu_lt_fuel bag pts hb
    omega
  rw [hn, run_midpoint_recursion_succ]
  by_cases hov : seg_overlap bag pts.1 pts.2 = true
  · rw [if_pos hov]
    constructor
    · intro h
      cases hnf : nearest_free_row bag ((pts.1.2 + pts.2.2) / 2)
          ((pts.1.1 + pts.2.1) / 2) with
      | none =>
        rw [hnf] at h
        simp at h
      | some mr =>
        rw [hnf] at h
        dsimp only at h
        by_cases hmid : ((mr, (pts.1.2 + pts.2.2) / 2) : Pt) = pts.1 ∨
            ((mr, (pts.1.2 + pts.2.2) / 2) : Pt) = pts.2
        · exact Or.inr ⟨mr, rfl, hmid⟩
        · exfalso
          rw [if_neg hmid] at h
          obtain ⟨⟨qr1, qc1⟩, qr2, qc2⟩ := pts
          unfold InB at hb
          dsimp only at hb
          obtain ⟨hb1, hb2, hb3, hb4⟩ := hb
          dsimp only at h hnf hmid hmun
          push_neg at hmid
          obtain ⟨hne1, hne2⟩ := hmid
          obtain ⟨⟨hmrH, hmcW⟩, hlt1, hlt2⟩ :=
            mu_child_lt bag qr1 qc1 qr2 qc2 mr hb1 hb2 hb3 hb4 hnf hne1 hne2
          cases hc1 : run_midpoint_recursion bag n
              ((qr1, qc1), (mr, (qc1 + qc2) / 2)) with
          | none =>
            exact midpoint_rec_dominated bag n _ ⟨hb1, hb2, hmrH, hmcW⟩
              (by omega) hc1
          | some res1 =>
            rw [hc1] at h
            cases res1 with
            | error e => simp at h
            | ok l1 =>
              cases hc2 : run_midpoint_recursion bag n
                  ((qr2, qc2), (mr, (qc1 + qc2) / 2)) with
              | none =>
                exact midpoint_rec_dominated bag n _ ⟨hb3, hb4, hmrH, hmcW⟩
                  (by omega) hc2
              | some res2 =>
                rw [hc2] at h
                cases res2 with
                | error e => simp at h
                | ok l2 =>
                  simp only [Option.some.injEq, Except.ok.injEq] at h
                  have hl1 := midpoint_rec_ok_ne_nil bag n _ _ hc1
                  have hl2 := midpoint_rec_ok_ne_nil bag n _ _ hc2
                  cases l1 with
                  | nil => exact hl1 rfl
                  | cons a t1 =>
                    rw [List.cons_append, List.cons.injEq] at h
                    exact hl2 (List.append_eq_nil.mp h.2).2
    · intro h
      rcases h with h | ⟨mr, hnf, hmid⟩
      · rw [hov] at h
        exact absurd h (by simp)
      · rw [hnf]
        dsimp only
        rw [if_pos hmid]
  · rw [if_neg hov]
    constructor
    · intro _
      refine Or.inl ?_
      revert hov
      cases seg_overlap bag pts.1 pts.2 <;> simp
    · intro _
      rfl

/-- C8: for endpoints inside the canvas, every branch of the sheet
midpoint recursion terminates — with fuel `midpoint_fuel` (a bound on
the lexicographic measure `mu`) the recursion never runs out, returning
either the segment decomposition or the empty-relocation-column error
the source raises out of `argmin` — and a sub-segment is returned
unsplit exactly when its raster overlaps no occupied cell, or when the
relocated midpoint (nearest free row of the middle column) coincides
with one of the sub-segment's own endpoints, the latter even if the
segment still overlaps. -/
theorem midpoint_recursion_terminates (bag : Grid) (pts : Pt × Pt)
    (hb : pts.1.1 < gridRows bag ∧ pts.1.2 < gridCols bag ∧
          pts.2.1 < gridRows bag ∧ pts.2.2 < gridCols bag) :
    run_midpoint_recursion bag (midpoint_fuel bag) pts ≠ none ∧
    (run_midpoint_recursion bag (midpoint_fuel bag) pts = some (Except.ok [pts]) ↔
      (seg_overlap bag pts.1 pts.2 = false ∨
       ∃ mr, nearest_free_row bag ((pts.1.2 + pts.2.2) / 2)
           ((pts.1.1 + pts.2.1) / 2) = some mr ∧
         (((mr, (pts.1.2 + pts.2.2) / 2) : Pt) = pts.1 ∨
          ((mr, (pts.1.2 + pts.2.2) / 2) : Pt) = pts.2))) :=
  ⟨midpoint_rec_dominated bag (midpoint_fuel bag) pts hb (mu_lt_fuel bag pts hb),
   midpoint_rec_unsplit_iff bag pts hb⟩

/-- Instantiation of the midpoint-recursion theorem on the fully
occupied 1×1 canvas from its only point to itself: the segment overlaps
and the relocation column has no free row, so the recursion terminates
with the empty-column error rather than the unsplit segment. -/
theorem midpoint_recursion_terminates_witness :
    run_midpoint_recursion [[1]] (midpoint_fuel [[1]]) ((0, 0), (0, 0)) ≠ none ∧
    run_midpoint_recursion [[1]] (midpoint_fuel [[1]]) ((0, 0), (0, 0)) ≠
      some (Except.ok [((0, 0), (0, 0))]) :=
  ⟨(midpoint_recursion_terminates [[1]] ((0, 0), (0, 0)) (by decide)).1,
   fun h => by
    rcases (midpoint_recursion_terminates [[1]] ((0, 0), (0, 0))
        (by decide)).2.mp h with h2 | ⟨mr, hmr, -⟩
    · exact absurd h2 (by decide)
    · rw [show nearest_free_row [[1]] ((0 + 0) / 2) ((0 + 0) / 2) = none
        from by decide] at hmr
      exact Option.noConfusion hmr⟩

end BaggageCreator2D
